import Mathlib

/-!
Shallow embedding of `iocage_lib/ioc_list.py` (class `IOCList`): the jail
listing / reconciliation engine.  Python strings are modelled as `String`
(lists of characters); the Python string primitives used by the source
(`split`, `rsplit`, `replace`, `rstrip`, `join`, `lower`, `in`,
`splitlines`, whitespace `split()`) are implemented below on `List Char`,
faithful to CPython semantics for the inputs that occur (ASCII text; the
Unicode-only divergences are noted where they arise).

External collaborators (the ZFS dataset store, the JSON config loader, the
`jls` kernel-registry probe, the in-jail `ifconfig` query, and the plugin
property lookup) are modelled as inputs/oracles: their *results* are fields
of the per-dataset input or functions in the environment, exactly at the
boundary where the source consumes them.
-/

namespace IocList

/-- Python `str` is a sequence of characters; we convert at the boundary. -/
def ofL (l : List Char) : String := String.mk l

/-- Split a character list at every occurrence of character `c`
(CPython `str.split(c)` for a one-character separator): `"a,,b"` gives
`["a", "", "b"]`, `""` gives `[""]`. -/
def splitOnCharL (c : Char) : List Char → List (List Char)
  | [] => [[]]
  | a :: as =>
    if a = c then [] :: splitOnCharL c as
    else
      match splitOnCharL c as with
      | g :: gs => (a :: g) :: gs
      | [] => [[a]]

/-- String-level wrapper for `splitOnCharL`. -/
def splitOnCharS (c : Char) (s : String) : List String :=
  (splitOnCharL c s.toList).map ofL

/-- Join with a separator (CPython `sep.join(parts)`). -/
def interL (sep : List Char) : List (List Char) → List Char
  | [] => []
  | [x] => x
  | x :: y :: ys => x ++ sep ++ interL sep (y :: ys)

/-- String-level join (CPython `sep.join(parts)`). -/
def joinS (sep : String) (parts : List String) : String :=
  ofL (interL sep.toList (parts.map String.toList))

/-- Scanner for `replaceL`: while the first argument is `k + 1`, skip `k`
more characters (the remainder of a matched pattern); at `0`, test for a
pattern match at the current position. -/
def replGo (pat repl : List Char) : Nat → List Char → List Char
  | _, [] => []
  | 0, c :: cs =>
    if pat ≠ [] ∧ pat.isPrefixOf (c :: cs) then
      repl ++ replGo pat repl (pat.length - 1) cs
    else
      c :: replGo pat repl 0 cs
  | k + 1, _ :: cs => replGo pat repl k cs

/-- CPython `str.replace(pat, repl)`: replace every (leftmost,
non-overlapping) occurrence of `pat`.  For `pat = []` CPython would weave
`repl` between characters; no call site of the source passes an empty
pattern, and we return the input unchanged in that case. -/
def replaceL (pat repl : List Char) (l : List Char) : List Char :=
  replGo pat repl 0 l

theorem replGo_skip (pat repl : List Char) (l : List Char) :
    ∀ k, replGo pat repl k l = replGo pat repl 0 (l.drop k) := by
  induction l with
  | nil => intro k; cases k <;> rfl
  | cons c cs ih =>
    intro k
    cases k with
    | zero => rfl
    | succ k => simpa [replGo] using ih k

theorem replaceL_nil (pat repl : List Char) : replaceL pat repl [] = [] := rfl

theorem replaceL_cons (pat repl : List Char) (c : Char) (cs : List Char) :
    replaceL pat repl (c :: cs) =
      if pat ≠ [] ∧ pat.isPrefixOf (c :: cs) then
        repl ++ replaceL pat repl ((c :: cs).drop pat.length)
      else c :: replaceL pat repl cs := by
  show replGo pat repl 0 (c :: cs) = _
  rw [replGo]
  split
  · rename_i h
    rw [replGo_skip]
    have h1 : 0 < pat.length := List.length_pos.mpr h.1
    have : (c :: cs).drop pat.length = cs.drop (pat.length - 1) := by
      cases hp : pat.length with
      | zero => omega
      | succ n => simp [List.drop]
    rw [this]
    rfl
  · rfl

/-- String-level `str.replace`. -/
def replaceS (s pat repl : String) : String :=
  ofL (replaceL pat.toList repl.toList s.toList)

/-- CPython substring test `pat in l` (for non-empty `pat`). -/
def containsPat (pat : List Char) : List Char → Bool
  | [] => pat.isEmpty
  | c :: cs => pat.isPrefixOf (c :: cs) || containsPat pat cs

/-- String-level substring test `pat in s`. -/
def strContains (s pat : String) : Bool :=
  containsPat pat.toList s.toList

/-- CPython `str.rsplit(pat, 1)` splitting part: `some (before, after)` at
the *last* occurrence of `pat`, `none` when `pat` does not occur. -/
def rsplitOnce? (pat : List Char) : List Char → Option (List Char × List Char)
  | [] => none
  | c :: cs =>
    match rsplitOnce? pat cs with
    | some (b, a) => some (c :: b, a)
    | none =>
      if pat ≠ [] ∧ pat.isPrefixOf (c :: cs) then
        some ([], (c :: cs).drop pat.length)
      else none

/-- CPython `s.rsplit(pat, 1)[0]`: the part before the last occurrence of
`pat`, or the whole string when `pat` does not occur. -/
def rsplitBeforeS (pat s : String) : String :=
  match rsplitOnce? pat.toList s.toList with
  | some (b, _) => ofL b
  | none => s

/-- CPython `str.split(pat, 1)`: `(before, some after)` at the *first*
occurrence of `pat`, `(s, none)` when `pat` does not occur. -/
def splitOncePat (pat : List Char) : List Char → List Char × Option (List Char)
  | [] => ([], none)
  | c :: cs =>
    if pat ≠ [] ∧ pat.isPrefixOf (c :: cs) then
      ([], some ((c :: cs).drop pat.length))
    else
      match splitOncePat pat cs with
      | (b, a) => (c :: b, a)

/-- CPython `str.rstrip(chars)`: remove every trailing character that is a
member of the character *set* `set` (not the literal suffix). -/
def rstripSetL (set : List Char) (l : List Char) : List Char :=
  (l.reverse.dropWhile (fun c => set.contains c)).reverse

/-- String-level `str.rstrip(chars)`. -/
def rstripSetS (set s : String) : String :=
  ofL (rstripSetL set.toList s.toList)

/-- CPython `str.lower()` (ASCII; the source's inputs are ASCII). -/
def lowerS (s : String) : String := ofL (s.toList.map Char.toLower)

theorem dropWhile_len_le (p : Char → Bool) (l : List Char) :
    (l.dropWhile p).length ≤ l.length := by
  induction l with
  | nil => simp [List.dropWhile]
  | cons c cs ih =>
    simp only [List.dropWhile]
    split
    · simp only [List.length_cons]
      omega
    · simp

/-- Scanner for `wsSplit`, accumulating the current word reversed in its
first argument. -/
def wsGo : List Char → List Char → List (List Char)
  | acc, [] => if acc.isEmpty then [] else [acc.reverse]
  | acc, c :: cs =>
    if c.isWhitespace then
      if acc.isEmpty then wsGo [] cs else acc.reverse :: wsGo [] cs
    else wsGo (c :: acc) cs

/-- CPython argument-less `str.split()`: split on runs of whitespace,
dropping empty pieces. -/
def wsSplit (l : List Char) : List (List Char) := wsGo [] l

/-- String-level whitespace `str.split()`. -/
def pySplitWs (s : String) : List String := (wsSplit s.toList).map ofL

/-- CPython `str.splitlines()` restricted to `'\n'` terminators (the only
line boundary occurring in the modelled process output): like splitting on
`'\n'` but a trailing newline does not produce a final empty piece, and the
empty string has no lines. -/
def pySplitLines (s : String) : List String :=
  if s.toList = [] then []
  else
    let parts := splitOnCharL '\n' s.toList
    let parts := if s.toList.getLast? = some '\n' then parts.dropLast else parts
    parts.map ofL

/-- CPython `s.split("/")[-1]`: the segment after the last `'/'`. -/
def lastSegL (l : List Char) : List Char := (splitOnCharL '/' l).getLastD []

/-- String-level last path segment, `s.split("/")[-1]`. -/
def lastSegS (s : String) : String := ofL (lastSegL s.toList)

/-- The `'\x7b'` character (written via its code point; see `rbrace`). -/
def lbrace : Char := Char.ofNat 123

/-- The `'\x7d'` character. -/
def rbrace : Char := Char.ofNat 125

/-- Hexadecimal digit value of a character, CPython `int(·, 16)` digit set. -/
def hexVal? (c : Char) : Option Nat :=
  if '0' ≤ c ∧ c ≤ '9' then some (c.toNat - '0'.toNat)
  else if 'a' ≤ c ∧ c ≤ 'f' then some (c.toNat - 'a'.toNat + 10)
  else if 'A' ≤ c ∧ c ≤ 'F' then some (c.toNat - 'A'.toNat + 10)
  else none

/-- Digit value with default `0` (only used on characters known to be hex). -/
def hexValD (c : Char) : Nat := (hexVal? c).getD 0

/-- CPython integer-literal tail: hexadecimal digits separated by single
underscores (no leading, trailing or doubled underscore), accumulating into
`acc`. -/
def hexDigitsVal : Nat → List Char → Option Nat
  | acc, [] => some acc
  | acc, c :: cs =>
    if c = '_' then
      match cs with
      | [] => none
      | c2 :: cs2 =>
        match hexVal? c2 with
        | some v => hexDigitsVal (16 * acc + v) cs2
        | none => none
    else
      match hexVal? c with
      | some v => hexDigitsVal (16 * acc + v) cs
      | none => none

/-- One or more hex digits with single-underscore grouping
(CPython `int(s, 16)` digit run). -/
def pyDigits? : List Char → Option Nat
  | [] => none
  | c :: cs =>
    match hexVal? c with
    | some v => hexDigitsVal v cs
    | none => none

/-- CPython `int(s, 16)` body after the optional sign: an optional `0x`/`0X`
base marker (itself optionally followed by one underscore), then digits. -/
def pyIntBody? (l : List Char) : Option Nat :=
  match l with
  | c0 :: x :: rest =>
    if c0 = '0' ∧ (x = 'x' ∨ x = 'X') then
      match rest with
      | [] => pyDigits? []
      | r0 :: rest2 => if r0 = '_' then pyDigits? rest2 else pyDigits? (r0 :: rest2)
    else pyDigits? l
  | _ => pyDigits? l

/-- CPython `int(s, 16)`: strip surrounding whitespace, optional sign, then
the hexadecimal body. -/
def pyIntHexL? (l : List Char) : Option Int :=
  let cs := l.dropWhile Char.isWhitespace
  let cs := (cs.reverse.dropWhile Char.isWhitespace).reverse
  match cs with
  | [] => (pyIntBody? []).map Int.ofNat
  | c :: rest =>
    if c = '+' then (pyIntBody? rest).map Int.ofNat
    else if c = '-' then (pyIntBody? rest).map (fun n => -(Int.ofNat n))
    else (pyIntBody? (c :: rest)).map Int.ofNat

/-- Lowercase hexadecimal digit character for a nibble value. -/
def hexCharL (n : Nat) : Char :=
  if n < 10 then Char.ofNat ('0'.toNat + n) else Char.ofNat ('a'.toNat + (n - 10))

/-- The `k` most significant nibbles of `n` (most significant first),
zero-padded: CPython `'%0{k}x' % n` digit values. -/
def natToNibbles : Nat → Nat → List Nat
  | 0, _ => []
  | k + 1, n => natToNibbles k (n / 16) ++ [n % 16]

/-- CPython `uuid.UUID.__init__` with `version=4`: force the RFC 4122
variant (clock-seq-high nibble, index 16, becomes `(v mod 4) + 8`) and the
version nibble (index 12 becomes `4`) on the 32-nibble value. -/
def setVersion4 (ds : List Nat) : List Nat :=
  let ds := ds.set 12 4
  ds.set 16 ((ds.getD 16 0) % 4 + 8)

/-- CPython `str(uuid)`: the 32 lowercase hex digits grouped 8-4-4-4-12 with
hyphens. -/
def uuidStrOfNibbles (ds : List Nat) : List Char :=
  let h := ds.map hexCharL
  h.take 8 ++ '-' :: ((h.drop 8).take 4) ++ '-' :: ((h.drop 12).take 4) ++
    '-' :: ((h.drop 16).take 4) ++ '-' :: (h.drop 20)

/-- CPython `str(uuid.UUID(s, version=4))` or `none` when the constructor
raises `ValueError`: drop every occurrence of `"urn:"` and `"uuid:"`, strip
surrounding braces, drop all hyphens, require exactly 32 remaining
characters denoting (via `int(·, 16)`) a value in `[0, 2^128)`, then render
the value with the version-4 bits forced.  (CPython's `\x7b`/`\x7d` strip
set is the two brace characters.) -/
def pyUUID4? (s : String) : Option String :=
  let hx := replaceL "urn:".toList [] s.toList
  let hx := replaceL "uuid:".toList [] hx
  let hx := hx.dropWhile (fun c => c = lbrace ∨ c = rbrace)
  let hx := (hx.reverse.dropWhile (fun c => c = lbrace ∨ c = rbrace)).reverse
  let hx := replaceL ['-'] [] hx
  if hx.length = 32 then
    match pyIntHexL? hx with
    | some i =>
      if 0 ≤ i ∧ i < 2 ^ 128 then
        some (ofL (uuidStrOfNibbles (setVersion4 (natToNibbles 32 i.toNat))))
      else none
    | none => none
  else none

/-- `ioc_list.py` 195-204: the displayed name.  `str(_uuid.UUID(uuid,
version=4))[:8]` when the name parses as a UUID, the name untouched on
`ValueError`. -/
def displayUuid (u : String) : String :=
  match pyUUID4? u with
  | some canon => ofL (canon.toList.take 8)
  | none => u

/-- `ioc_list.py` 206-213: the short IPv4 form of one comma-entry,
`item.split("|")[1].split("/")[0]`; `none` models the `IndexError` when the
entry has no `"|"`. -/
def addrOf? (item : List Char) : Option (List Char) :=
  match splitOnCharL '|' item with
  | _ :: second :: _ =>
    match splitOnCharL '/' second with
    | first :: _ => some first
    | [] => none
  | _ => none

/-- Evaluate `f` over the list left to right, failing at the first `none`
(the Python list comprehension with a possible `IndexError`). -/
def mapMOpt (f : α → Option β) : List α → Option (List β)
  | [] => some []
  | a :: as =>
    match f a with
    | none => none
    | some b =>
      match mapMOpt f as with
      | none => none
      | some bs => some (b :: bs)

/-- `ioc_list.py` 209-213: short IPv4 derivation.  The comprehension raises
`IndexError` as soon as one entry lacks `"|"` (modelled by `mapMOpt`), in
which case the raw value is passed through, with `"none"` mapped to
`"-"`. -/
def shortIp4 (full_ip4 : String) : String :=
  match mapMOpt addrOf? (splitOnCharL ',' full_ip4.toList) with
  | some addrs => ofL (interL [','] addrs)
  | none => if full_ip4 ≠ "none" then full_ip4 else "-"

/-- Python word character for `re` patterns (`\w`), ASCII range (the release
strings at issue are ASCII). -/
def isWordChar (c : Char) : Bool := c.isAlphanum || c = '_'

/-- `re.sub(r"\W\w.", "-", s)`: scan left to right; a non-word character
followed by a word character followed by any non-newline character is
replaced by `'-'`; scanning resumes after the match. -/
def reSubWwDot : List Char → List Char
  | a :: b :: c :: rest =>
    if !isWordChar a && isWordChar b && c ≠ '\n' then
      '-' :: reSubWwDot rest
    else a :: reSubWwDot (b :: c :: rest)
  | l => l

/-- String-level `re.sub(r"\W\w.", "-", s)`. -/
def reSubS (s : String) : String := ofL (reSubWwDot s.toList)

/-- `ioc_list.py` 219-224: release-string normalization, returning
`(full_release, short_release)`. -/
def normalizeRelease (release : String) : String × String :=
  if strContains release "HBSD" then
    let fr := reSubS release
    let fr := replaceS fr "--SD" "-STABLE-HBSD"
    (fr, rstripSetS "-HBSD" fr)
  else
    (release, joinS "-" ((splitOnCharS '-' release).take 2))

/-- `ioc_list.py` 241-255: template-origin resolution from the jail `type`
and the `origin` property of the jail's root dataset (`none` models a falsy
property object). -/
def templateOf (jail_type : String) (originProp : Option String) : String :=
  let t :=
    if jail_type == "template" then "-"
    else
      match originProp with
      | some v =>
        if v ≠ "" then lastSegS (rsplitBeforeS "/root@" v) else "-"
      | none => "-"
  if strContains (lowerS t) "release" || strContains (lowerS t) "stable" then "-"
  else t

/-- `ioc_list.py` 394: the synthesized kernel-registry name,
`f"ioc-{uuid.replace('.', '_')}"`. -/
def jlsJailName (uuid : String) : String := "ioc-" ++ replaceS uuid "." "_"

/-- An uncaught `IndexError` (malformed external-process output indexed past
its end), which aborts the listing. -/
inductive ProcErr
  | indexError
deriving DecidableEq, Repr

/-- `ioc_list.py` 389-399 (`IOCList.list_get_jid`): invoke `jls -j` on the
synthesized name (the oracle `jls` maps the queried name to the command's
output, or to `CalledProcessError` for a non-zero exit).  A zero exit yields
`(True, output.split()[5])` — an output with fewer than six
whitespace-delimited fields would raise `IndexError` — and a non-zero exit
yields `(False, "-")`. -/
def list_get_jid (jls : String → Except Unit String) (uuid : String) :
    Except ProcErr (Bool × String) :=
  match jls (jlsJailName uuid) with
  | .ok out =>
    match (pySplitWs out).get? 5 with
    | some jid => .ok (true, jid)
    | none => .error .indexError
  | .error _ => .ok (false, "-")

/-- `ioc_list.py` 274: extract `out.splitlines()[2].split()[1]` from the
`ifconfig` output; `none` models the `IndexError` on malformed output. -/
def netParse? (out : String) : Option String :=
  match (pySplitLines out).get? 2 with
  | some line => (pySplitWs line).get? 1
  | none => none

/-- `ioc_list.py` 258-262: the interface queried for a DHCP jail: the first
interface tag, `conf["interfaces"].split(",")[0].split(":")[0]`, with
`vnet0` remapped to the in-jail `epair0b` name. -/
def ifaceOf (interfaces : String) : String :=
  let interface := (splitOnCharS ':' ((splitOnCharS ',' interfaces).headD "")).headD ""
  if interface == "vnet0" then replaceS interface "vnet" "epair" ++ "b"
  else interface

/-- `ioc_list.py` 293-297: the display address substituted for `%%IP%%`:
`full_ip4.split("|", 1)`, keeping the part after the separator when present,
then the part before `"/"` — unless `full_ip4` mentions DHCP, in which case
the literal `"DHCP"`. -/
def ipDisplay (full_ip4 : String) : String :=
  let ip :=
    match splitOncePat "|".toList full_ip4.toList with
    | (_, some a) => a
    | (b, none) => b
  if !strContains full_ip4 "DHCP" then ofL (splitOncePat "/".toList ip).1
  else "DHCP"

/-- Outcome of one `json_plugin_get_value` lookup for a named placeholder
(external collaborator, parametrized): a resolved value, a `KeyError`, or a
structured `CommandFailed` whose captured output decodes to `msg`. -/
inductive PluginRes
  | ok (v : String)
  | keyErr
  | cmdFailed (msg : String)
deriving DecidableEq, Repr

/-- `ioc_list.py` 302-316: fold the placeholder substitutions.  A `KeyError`
escapes the `for` loop and is passed, keeping the URL as resolved so far; a
`CommandFailed` replaces the whole URL with the command's captured output
under root, or with the access-denied placeholder otherwise. -/
def resolvePh (euid : Nat) : String → List (String × PluginRes) → String
  | ap, [] => ap
  | ap, (ph, .ok v) :: rest => resolvePh euid (replaceS ap ph v) rest
  | ap, (_, .keyErr) :: _ => ap
  | ap, (_, .cmdFailed m) :: _ =>
    if euid == 0 then m else "Admin Portal requires root"

/-- Parsed `plugin/ui.json` portal descriptor: the `adminportal` URL
template and, when the `adminportal_placeholders` key is present, the
placeholder list paired with each one's lookup outcome. -/
structure UiJson where
  adminportal : String
  placeholders : Option (List (String × PluginRes))
deriving DecidableEq, Repr

/-- `ioc_list.py` 291-320: admin-portal resolution.  A missing
`plugin/ui.json` (`FileNotFoundError`) yields `"-"`; otherwise `%%IP%%` is
substituted with the display address and the named placeholders are
resolved. -/
def adminPortalOf (euid : Nat) (full_ip4 : String) (ui : Option UiJson) :
    String :=
  match ui with
  | none => "-"
  | some u =>
    let ap := replaceS u.adminportal "%%IP%%" (ipDisplay full_ip4)
    match u.placeholders with
    | none => ap
    | some ph => resolvePh euid ap ph

/-- A loaded jail configuration (the keys of `config.json` the listing
reads; `json_get_value('all')` always supplies them).  `basejail` is
optional because the source reads it with `conf.get('basejail', 'no')`. -/
structure JailConf where
  host_hostuuid : String
  ip4_addr : String
  ip6_addr : String
  boot : String
  jail_type : String
  release : String
  dhcp : String
  interfaces : String
  basejail : Option String
deriving DecidableEq, Repr

/-- `ioc_list.py` 175-187: the synthesized configuration for a corrupt jail:
every default property is `'N/A'` (including `basejail` and `release`), and
`host_hostuuid` is the dataset name's last `/`-segment. -/
def corruptConf (dsName : String) : JailConf :=
  { host_hostuuid := lastSegS dsName
    ip4_addr := "N/A"
    ip6_addr := "N/A"
    boot := "N/A"
    jail_type := "N/A"
    release := "N/A"
    dhcp := "N/A"
    interfaces := "N/A"
    basejail := some "N/A" }

/-- One dataset as the loop consumes it: its name, mount point, the result
of the configuration load (`none` when `json_get_value` raises), the
`origin` property of its `root` child dataset (`none` for a falsy property
object), and the parsed `plugin/ui.json` (`none` for `FileNotFoundError`). -/
structure DsJail where
  name : String
  mountpoint : String
  conf : Option JailConf
  originProp : Option String
  uiFile : Option UiJson

/-- The listing environment: effective uid, the `full`/`plugin`/basejail
flags, and the two external-process oracles (`jls` keyed by the synthesized
jail name; `netQuery` keyed by jail name and interface, `.error` carrying
`str(CalledProcessError)`). -/
structure Env where
  euid : Nat
  full : Bool
  plugin : Bool
  basejail_only : Bool
  jls : String → Except Unit String
  netQuery : String → String → Except String String

/-- The per-jail facts `list_all` accumulates before projecting a row:
exactly the local variables of the loop body at the append sites
(`ioc_list.py` 322-330).  `admin_portal` is `some` only in the plugin
view. -/
structure Record where
  jid : String
  uuid : String
  uuid_full : String
  state : String
  boot : String
  jail_type : String
  full_release : String
  short_release : String
  full_ip4 : String
  short_ip4 : String
  ip6 : String
  template : String
  admin_portal : Option String
deriving DecidableEq, Repr

/-- The external-process invocations a loop iteration performs: the
`jls -j` names queried and the jail names passed to the in-jail `ifconfig`
query. -/
structure CallLog where
  jlsCalls : List String
  netCalls : List String
deriving DecidableEq, Repr

/-- `ioc_list.py` 164-330: one iteration of the `list_all` loop.  Returns
`.ok none` when the record is filtered out (basejail-only mode, or a
non-plugin jail in the plugin view), `.ok (some r)` when a row is appended,
and `.error` when an uncaught `IndexError` aborts the listing; paired with
the log of external-process calls made. -/
def processJail (env : Env) (j : DsJail) : Except ProcErr (Option Record) × CallLog :=
  let effFull := if env.plugin then true else env.full
  let (conf, state0, jid0) :=
    match j.conf with
    | some c => (c, "", "")
    | none => (corruptConf j.name, "CORRUPT", "-")
  if env.basejail_only && conf.basejail.getD "no" != "yes" then
    (.ok none, ⟨[], []⟩)
  else
    let uuid_full := conf.host_hostuuid
    let uuid := if !effFull then displayUuid uuid_full else uuid_full
    let full_ip4 := conf.ip4_addr
    let ip6 := conf.ip6_addr
    let short_ip4 := shortIp4 full_ip4
    let boot := conf.boot
    let jail_type := conf.jail_type
    let (full_release, short_release) := normalizeRelease conf.release
    let full_ip4 := if full_ip4 == "none" then "-" else full_ip4
    let ip6 := if ip6 == "none" then "-" else ip6
    let probe : Except ProcErr (Option (Bool × String)) :=
      if state0 != "CORRUPT" then (list_get_jid env.jls uuid_full).map some
      else .ok none
    let jlsLog : List String :=
      if state0 != "CORRUPT" then [jlsJailName uuid_full] else []
    match probe with
    | .error e => (.error e, ⟨jlsLog, []⟩)
    | .ok pr =>
      let (status, state, jid) :=
        match pr with
        | some (true, j5) => (true, "up", j5)
        | some (false, jd) => (false, "down", jd)
        | none => (false, state0, jid0)
      let template := templateOf conf.jail_type j.originProp
      let dhcpStep : Except ProcErr (String × String) × List String :=
        if conf.dhcp == "on" && status && decide (env.euid = 0) then
          let interface := ifaceOf conf.interfaces
          let nm := jlsJailName uuid_full
          (match env.netQuery nm interface with
           | .error e => .ok ("DHCP - Network Issue:" ++ e, "DHCP(Network Issue)")
           | .ok out =>
             match netParse? out with
             | some addr => .ok (interface ++ "|" ++ addr, "DHCP")
             | none => .error .indexError,
           [nm])
        else if conf.dhcp == "on" && !status then
          (.ok ("DHCP (not running)", "DHCP"), [])
        else if conf.dhcp == "on" && decide (env.euid ≠ 0) then
          (.ok ("DHCP (running -- address requires root)", "DHCP"), [])
        else (.ok (full_ip4, short_ip4), [])
      match dhcpStep with
      | (.error e, nlog) => (.error e, ⟨jlsLog, nlog⟩)
      | (.ok (full_ip4, short_ip4), nlog) =>
        ((if effFull && env.plugin then
            if jail_type != "plugin" && jail_type != "pluginv2" then
              .ok none
            else
              .ok (some
                { jid := jid, uuid := uuid, uuid_full := uuid_full, state := state
                  boot := boot, jail_type := jail_type
                  full_release := full_release, short_release := short_release
                  full_ip4 := full_ip4, short_ip4 := short_ip4, ip6 := ip6
                  template := template
                  admin_portal := some (adminPortalOf env.euid full_ip4 j.uiFile) })
          else
            .ok (some
              { jid := jid, uuid := uuid, uuid_full := uuid_full, state := state
                boot := boot, jail_type := jail_type
                full_release := full_release, short_release := short_release
                full_ip4 := full_ip4, short_ip4 := short_ip4, ip6 := ip6
                template := template, admin_portal := none })),
         ⟨jlsLog, nlog⟩)

/-- Concatenate two call logs. -/
def mergeLog (a b : CallLog) : CallLog :=
  ⟨a.jlsCalls ++ b.jlsCalls, a.netCalls ++ b.netCalls⟩

/-- `ioc_list.py` 159-342 (`IOCList.list_all`) up to the sort/render steps
(the sort and table presenter are external collaborators and do not change
the record set): the jails processed in order, aborting on the first
uncaught exception. -/
def list_all (env : Env) : List DsJail → Except ProcErr (List Record) × CallLog
  | [] => (.ok [], ⟨[], []⟩)
  | j :: rest =>
    match processJail env j with
    | (.error e, log) => (.error e, log)
    | (.ok rec?, log) =>
      match list_all env rest with
      | (.error e, log2) => (.error e, mergeLog log log2)
      | (.ok rs, log2) =>
        (.ok (match rec? with | some r => r :: rs | none => rs),
         mergeLog log log2)

/-- The keys `list_all_quick` reads from a parsed `config.json` (all but
`host_hostuuid` via `.get` with a default, hence optional). -/
structure QuickConf where
  host_hostuuid : String
  ip4_addr : Option String
  dhcp : Option String
  basejail : Option String
deriving DecidableEq, Repr

/-- Outcome of `json.load(open(f"{mountpoint}/config.json"))` in quick mode:
loaded, `FileNotFoundError`, or any other failure (corrupt file). -/
inductive QuickLoad
  | loaded (c : QuickConf)
  | missing
  | corrupt
deriving DecidableEq, Repr

/-- One dataset as `list_all_quick` consumes it. -/
structure QuickJail where
  mountpoint : String
  load : QuickLoad

/-- `ioc_list.py` 107-139: one iteration of the `list_all_quick` loop.
A `FileNotFoundError` raises an `EXCEPTION`-level diagnostic, aborting the
listing: `ioc_common.logit` (outside the visible source) raises at that
level, and even if it returned, `conf` is unbound on the first dataset, so
the following `conf["host_hostuuid"]` would raise an uncaught `NameError`.
Any other load failure synthesizes the three-key CORRUPTED mapping (which
has no `basejail` key). -/
def processQuickJail (basejail_only : Bool) (j : QuickJail) :
    Except Unit (Option (String × String)) :=
  match j.load with
  | .missing => .error ()
  | other =>
    let conf : QuickConf :=
      match other with
      | .loaded c => c
      | _ =>
        { host_hostuuid := lastSegS j.mountpoint ++ " - CORRUPTED"
          ip4_addr := some "N/A", dhcp := some "N/A", basejail := none }
    let uuid := conf.host_hostuuid
    let ip4 := conf.ip4_addr.getD "none"
    let dhcp := conf.dhcp.getD "off"
    let ip4 := if dhcp != "on" then ip4 else "DHCP"
    if basejail_only && conf.basejail.getD "no" != "yes" then .ok none
    else .ok (some (uuid, ip4))

/-- `ioc_list.py` 103-146 (`IOCList.list_all_quick`) up to the presenter:
the `[uuid, ip4]` rows in dataset order, aborting on the first uncaught
exception. -/
def list_all_quick (basejail_only : Bool) :
    List QuickJail → Except Unit (List (String × String))
  | [] => .ok []
  | j :: rest =>
    match processQuickJail basejail_only j with
    | .error e => .error e
    | .ok x =>
      match list_all_quick basejail_only rest with
      | .error e => .error e
      | .ok l => .ok (match x with | some p => p :: l | none => l)

/-! ## Helper lemmas -/

theorem splitOnCharL_ne_nil (c : Char) (l : List Char) : splitOnCharL c l ≠ [] := by
  induction l with
  | nil => simp [splitOnCharL]
  | cons a as ih =>
    simp only [splitOnCharL]
    split
    · simp
    · cases h : splitOnCharL c as with
      | nil => exact absurd h ih
      | cons g gs => simp

theorem splitOnCharL_no_sep (c : Char) (l : List Char) (h : ∀ x ∈ l, x ≠ c) :
    splitOnCharL c l = [l] := by
  induction l with
  | nil => rfl
  | cons a as ih =>
    have ha : a ≠ c := h a (List.mem_cons_self a as)
    have hrest := ih (fun x hx => h x (List.mem_cons_of_mem _ hx))
    simp only [splitOnCharL, if_neg ha, hrest]

theorem splitOnCharL_append_cons (c : Char) (a b : List Char)
    (h : ∀ x ∈ a, x ≠ c) :
    splitOnCharL c (a ++ c :: b) = a :: splitOnCharL c b := by
  induction a with
  | nil => simp [splitOnCharL]
  | cons x xs ih =>
    have hx : x ≠ c := h x (List.mem_cons_self x xs)
    have hrest := ih (fun y hy => h y (List.mem_cons_of_mem _ hy))
    simp only [List.cons_append, splitOnCharL, if_neg hx]
    rw [show splitOnCharL c (xs.append (c :: b)) = xs :: splitOnCharL c b from hrest]

theorem splitOnCharL_two_le (c : Char) (l : List Char) (h : c ∈ l) :
    2 ≤ (splitOnCharL c l).length := by
  induction l with
  | nil => simp at h
  | cons a as ih =>
    simp only [splitOnCharL]
    split
    · have := (splitOnCharL_ne_nil c as)
      have hlen : 1 ≤ (splitOnCharL c as).length := by
        cases hs : splitOnCharL c as with
        | nil => exact absurd hs this
        | cons g gs => simp
      simp only [List.length_cons]
      omega
    · rename_i hac
      have hmem : c ∈ as := by
        rcases List.mem_cons.mp h with h1 | h2
        · exact absurd h1.symm hac
        · exact h2
      cases hs : splitOnCharL c as with
      | nil => exact absurd hs (splitOnCharL_ne_nil c as)
      | cons g gs =>
        have := ih hmem
        rw [hs] at this
        simp only [List.length_cons] at this ⊢
        omega

theorem getLast?_splitOnCharL_append (c : Char) (l n : List Char) :
    (splitOnCharL c (l ++ c :: n)).getLast? = (splitOnCharL c n).getLast? := by
  induction l with
  | nil =>
    simp only [List.nil_append, splitOnCharL, if_pos rfl]
    cases hs : splitOnCharL c n with
    | nil => exact absurd hs (splitOnCharL_ne_nil c n)
    | cons g gs => simp
  | cons a as ih =>
    simp only [List.cons_append, splitOnCharL]
    split
    · cases hs : splitOnCharL c (as ++ c :: n) with
      | nil => exact absurd hs (splitOnCharL_ne_nil c _)
      | cons g gs =>
        rw [hs] at ih
        simp only [List.getLast?_cons_cons]
        exact ih
    · cases hs : splitOnCharL c (as ++ c :: n) with
      | nil => exact absurd hs (splitOnCharL_ne_nil c _)
      | cons g gs =>
        rw [hs] at ih
        have h2 := splitOnCharL_two_le c (as ++ c :: n) (by simp)
        rw [hs] at h2
        simp only [List.length_cons] at h2
        cases gs with
        | nil => simp at h2
        | cons g2 gs2 => simpa using ih

theorem lastSegL_append (p n : List Char) (h : ∀ x ∈ n, x ≠ '/') :
    lastSegL (p ++ '/' :: n) = n := by
  unfold lastSegL
  have h1 := getLast?_splitOnCharL_append '/' p n
  rw [splitOnCharL_no_sep '/' n h] at h1
  simp only [List.getLast?_singleton] at h1
  cases hs : splitOnCharL '/' (p ++ '/' :: n) with
  | nil => exact absurd hs (splitOnCharL_ne_nil _ _)
  | cons g gs =>
    rw [hs] at h1
    have : (g :: gs).getLastD [] = (g :: gs).getLast (by simp) := by
      simp [List.getLastD_eq_getLast?, List.getLast?_eq_getLast]
    rw [this]
    have h2 : (g :: gs).getLast? = some n := h1
    rw [List.getLast?_eq_getLast _ (by simp)] at h2
    exact Option.some.inj h2



theorem splitOnCharL_head (c : Char) (l : List Char) :
    ∃ rest, splitOnCharL c l = (l.takeWhile (fun x => x ≠ c)) :: rest := by
  induction l with
  | nil => exact ⟨[], rfl⟩
  | cons a as ih =>
    obtain ⟨rest, hrest⟩ := ih
    simp only [splitOnCharL, List.takeWhile]
    by_cases hac : a = c
    · subst hac
      refine ⟨splitOnCharL a as, ?_⟩
      simp
    · rw [if_neg hac, hrest]
      refine ⟨rest, ?_⟩
      simp [hac]

theorem mem_of_mem_splitOnCharL (c : Char) (l : List Char) (p : List Char)
    (hp : p ∈ splitOnCharL c l) (x : Char) (hx : x ∈ p) : x ∈ l := by
  induction l generalizing p with
  | nil =>
    simp only [splitOnCharL, List.mem_singleton] at hp
    subst hp
    simp at hx
  | cons a as ih =>
    simp only [splitOnCharL] at hp
    split at hp
    · rcases List.mem_cons.mp hp with h1 | h2
      · subst h1; simp at hx
      · exact List.mem_cons_of_mem _ (ih p h2 hx)
    · cases hs : splitOnCharL c as with
      | nil => exact absurd hs (splitOnCharL_ne_nil c as)
      | cons g gs =>
        rw [hs] at hp
        rcases List.mem_cons.mp hp with h1 | h2
        · subst h1
          rcases List.mem_cons.mp hx with h3 | h4
          · subst h3; exact List.mem_cons_self _ _
          · exact List.mem_cons_of_mem _ (ih g (by rw [hs]; exact List.mem_cons_self g gs) h4)
        · exact List.mem_cons_of_mem _ (ih p (by rw [hs]; exact List.mem_cons_of_mem _ h2) hx)

theorem splitOnCharL_interL (c : Char) (parts : List (List Char))
    (hne : parts ≠ []) (h : ∀ p ∈ parts, ∀ x ∈ p, x ≠ c) :
    splitOnCharL c (interL [c] parts) = parts := by
  induction parts with
  | nil => exact absurd rfl hne
  | cons p ps ih =>
    cases ps with
    | nil =>
      simp only [interL]
      exact splitOnCharL_no_sep c p (h p (List.mem_cons_self p []))
    | cons q qs =>
      have hstep : interL [c] (p :: q :: qs) = p ++ c :: interL [c] (q :: qs) := by
        simp [interL]
      rw [hstep, splitOnCharL_append_cons c p _ (h p (List.mem_cons_self _ _)),
        ih (by simp) (fun r hr => h r (List.mem_cons_of_mem _ hr))]

theorem processJail_ok (env : Env) (j : DsJail)
    (hjls : ∀ s out, env.jls s = Except.ok out → 6 ≤ (pySplitWs out).length)
    (hnet : ∀ n i out, env.netQuery n i = Except.ok out → (netParse? out).isSome) :
    ∃ x log, processJail env j = (.ok x, log) := by
  obtain ⟨euid, full, plugin, bj, jls, net⟩ := env
  obtain ⟨name, mp, conf, op, ui⟩ := j
  dsimp only at hjls hnet
  dsimp only [processJail]
  split
  · exact ⟨none, _, rfl⟩
  · cases conf with
    | none => cases plugin <;> cases full <;> exact ⟨_, _, rfl⟩
    | some c =>
      dsimp only [list_get_jid]
      rw [show ((("" : String) != "CORRUPT")) = true from rfl]
      simp only [reduceIte]
      cases hjl : jls (jlsJailName c.host_hostuuid) with
      | error e =>
        cases hdh : c.dhcp == "on" <;>
          cases hjt : (c.jail_type != "plugin" && c.jail_type != "pluginv2") <;>
            cases plugin <;> cases full <;> exact ⟨_, _, rfl⟩
      | ok out =>
        dsimp only [Except.map]
        obtain ⟨v, hv⟩ : ∃ v, (pySplitWs out).get? 5 = some v :=
          ⟨_, List.get?_eq_get (by have := hjls _ _ hjl; omega)⟩
        rw [hv]
        by_cases heu : euid = 0
        · subst heu
          cases hdh : c.dhcp == "on" with
          | false =>
            cases hjt : (c.jail_type != "plugin" && c.jail_type != "pluginv2") <;>
              cases plugin <;> cases full <;> exact ⟨_, _, rfl⟩
          | true =>
            cases hnq : net (jlsJailName c.host_hostuuid) (ifaceOf c.interfaces) with
            | error e2 =>
              cases hjt : (c.jail_type != "plugin" && c.jail_type != "pluginv2") <;>
                cases plugin <;> cases full <;> exact ⟨_, _, rfl⟩
            | ok out2 =>
              have hps := hnet _ _ _ hnq
              obtain ⟨addr, ha⟩ := Option.isSome_iff_exists.mp hps
              dsimp only
              rw [ha]
              cases hjt : (c.jail_type != "plugin" && c.jail_type != "pluginv2") <;>
                cases plugin <;> cases full <;> exact ⟨_, _, rfl⟩
        · rw [decide_eq_false heu, decide_eq_true (show euid ≠ 0 from heu)]
          cases hdh : c.dhcp == "on" <;>
            cases hjt : (c.jail_type != "plugin" && c.jail_type != "pluginv2") <;>
              cases plugin <;> cases full <;> exact ⟨_, _, rfl⟩

theorem list_all_ok (env : Env) (jails : List DsJail)
    (hjls : ∀ s out, env.jls s = Except.ok out → 6 ≤ (pySplitWs out).length)
    (hnet : ∀ n i out, env.netQuery n i = Except.ok out → (netParse? out).isSome) :
    ∃ rs log, list_all env jails = (.ok rs, log) := by
  induction jails with
  | nil => exact ⟨[], _, rfl⟩
  | cons j rest ih =>
    obtain ⟨x, log, hx⟩ := processJail_ok env j hjls hnet
    obtain ⟨rs, log2, hr⟩ := ih
    dsimp only [list_all]
    rw [hx, hr]
    cases x <;> exact ⟨_, _, rfl⟩

theorem processQuickJail_ok (b : Bool) (q : QuickJail)
    (h : q.load ≠ QuickLoad.missing) :
    ∃ y, processQuickJail b q = .ok y := by
  obtain ⟨mp, load⟩ := q
  cases load with
  | missing => exact absurd rfl h
  | corrupt => cases b <;> exact ⟨_, rfl⟩
  | loaded c =>
    dsimp only [processQuickJail]
    split <;> exact ⟨_, rfl⟩

theorem list_all_quick_ok (b : Bool) (qjails : List QuickJail)
    (h : ∀ q ∈ qjails, q.load ≠ QuickLoad.missing) :
    ∃ l, list_all_quick b qjails = .ok l := by
  induction qjails with
  | nil => exact ⟨[], rfl⟩
  | cons q rest ih =>
    obtain ⟨y, hy⟩ := processQuickJail_ok b q (h q (List.mem_cons_self q rest))
    obtain ⟨l, hl⟩ := ih (fun q2 hq2 => h q2 (List.mem_cons_of_mem _ hq2))
    dsimp only [list_all_quick]
    rw [hy, hl]
    cases y <;> exact ⟨_, rfl⟩

theorem processJail_probe_up (env : Env) (j : DsJail) (c : JailConf) (r : Record)
    (log : CallLog) (out : String)
    (hc : j.conf = some c)
    (hjl : env.jls (jlsJailName c.host_hostuuid) = Except.ok out)
    (hres : processJail env j = (.ok (some r), log)) :
    log.jlsCalls = [jlsJailName c.host_hostuuid] ∧
    r.state = "up" ∧ (pySplitWs out).get? 5 = some r.jid := by
  obtain ⟨euid, full, plugin, bj, jls, net⟩ := env
  obtain ⟨name, mp, conf, op, ui⟩ := j
  dsimp only at hc hjl
  subst hc
  dsimp only [processJail, list_get_jid] at hres
  rw [show ((("" : String) != "CORRUPT")) = true from rfl] at hres
  simp only [reduceIte] at hres
  rw [hjl] at hres
  dsimp only [Except.map] at hres
  split at hres
  · exact absurd hres (by simp)
  · cases h5 : (pySplitWs out).get? 5 with
    | none => rw [h5] at hres; exact absurd hres (by simp)
    | some v =>
      rw [h5] at hres
      dsimp only at hres
      by_cases heu : euid = 0
      · subst heu
        rw [show (decide ((0 : Nat) = 0)) = true from rfl,
            show (decide ((0 : Nat) ≠ 0)) = false from rfl] at hres
        cases hdh : c.dhcp == "on" with
        | false =>
          rw [hdh] at hres
          simp only [Bool.false_and, Bool.true_and, Bool.and_false, Bool.and_true,
            Bool.not_true, Bool.not_false, Bool.false_eq_true, Bool.true_eq_false,
            eq_self_iff_true, if_true, if_false, Prod.mk.injEq] at hres
          obtain ⟨hr, hlog⟩ := hres
          refine ⟨by rw [← hlog], ?_⟩
          cases plugin <;> cases full <;>
            cases hjt : (c.jail_type != "plugin" && c.jail_type != "pluginv2") <;>
              (try simp only [hjt, Bool.true_and, Bool.false_and, Bool.and_true,
                Bool.and_false, Bool.true_eq_false, Bool.false_eq_true, eq_self_iff_true,
                if_true, if_false, Except.ok.injEq, Option.some.injEq] at hr) <;>
              first
              | (subst hr; exact ⟨rfl, rfl⟩)
              | simp at hr
        | true =>
          rw [hdh] at hres
          simp only [Bool.true_and, Bool.and_true] at hres
          cases hnq : net (jlsJailName c.host_hostuuid) (ifaceOf c.interfaces) with
          | error e2 =>
            rw [hnq] at hres
            dsimp only at hres
            simp only [Bool.false_eq_true, Bool.true_eq_false, eq_self_iff_true,
              if_true, if_false, Prod.mk.injEq] at hres
            obtain ⟨hr, hlog⟩ := hres
            refine ⟨by rw [← hlog], ?_⟩
            cases plugin <;> cases full <;>
              cases hjt : (c.jail_type != "plugin" && c.jail_type != "pluginv2") <;>
                (try simp only [hjt, Bool.true_and, Bool.false_and, Bool.and_true,
                  Bool.and_false, Bool.true_eq_false, Bool.false_eq_true, eq_self_iff_true,
                  if_true, if_false, Except.ok.injEq, Option.some.injEq] at hr) <;>
                first
                | (subst hr; exact ⟨rfl, rfl⟩)
                | simp at hr
          | ok out2 =>
            rw [hnq] at hres
            dsimp only at hres
            cases hpar : netParse? out2 with
            | none =>
              rw [hpar] at hres
              simp only [Bool.false_eq_true, Bool.true_eq_false, eq_self_iff_true,
                if_true, if_false] at hres
              exact absurd hres (by simp)
            | some addr =>
              rw [hpar] at hres
              dsimp only at hres
              simp only [Bool.false_eq_true, Bool.true_eq_false, eq_self_iff_true,
                if_true, if_false, Prod.mk.injEq] at hres
              obtain ⟨hr, hlog⟩ := hres
              refine ⟨by rw [← hlog], ?_⟩
              cases plugin <;> cases full <;>
                cases hjt : (c.jail_type != "plugin" && c.jail_type != "pluginv2") <;>
                  (try simp only [hjt, Bool.true_and, Bool.false_and, Bool.and_true,
                    Bool.and_false, Bool.true_eq_false, Bool.false_eq_true, eq_self_iff_true,
                    if_true, if_false, Except.ok.injEq, Option.some.injEq] at hr) <;>
                  first
                  | (subst hr; exact ⟨rfl, rfl⟩)
                  | simp at hr
      · rw [decide_eq_false heu, decide_eq_true (show euid ≠ 0 from heu)] at hres
        cases hdh : c.dhcp == "on" <;> rw [hdh] at hres <;>
          simp only [Bool.false_and, Bool.true_and, Bool.and_false, Bool.and_true,
            Bool.not_true, Bool.not_false, Bool.false_eq_true, Bool.true_eq_false,
            eq_self_iff_true, if_true, if_false, Prod.mk.injEq] at hres <;>
          (obtain ⟨hr, hlog⟩ := hres) <;>
          refine ⟨by rw [← hlog], ?_⟩ <;>
          cases plugin <;> cases full <;>
            cases hjt : (c.jail_type != "plugin" && c.jail_type != "pluginv2") <;>
              (try simp only [hjt, Bool.true_and, Bool.false_and, Bool.and_true,
                Bool.and_false, Bool.true_eq_false, Bool.false_eq_true, eq_self_iff_true,
                if_true, if_false, Except.ok.injEq, Option.some.injEq] at hr) <;>
              first
              | (subst hr; exact ⟨rfl, rfl⟩)
              | simp at hr

theorem processJail_probe_down (env : Env) (j : DsJail) (c : JailConf) (r : Record)
    (log : CallLog)
    (hc : j.conf = some c)
    (hjl : env.jls (jlsJailName c.host_hostuuid) = Except.error ())
    (hres : processJail env j = (.ok (some r), log)) :
    log.jlsCalls = [jlsJailName c.host_hostuuid] ∧
    r.state = "down" ∧ r.jid = "-" := by
  obtain ⟨euid, full, plugin, bj, jls, net⟩ := env
  obtain ⟨name, mp, conf, op, ui⟩ := j
  dsimp only at hc hjl
  subst hc
  dsimp only [processJail, list_get_jid] at hres
  rw [show ((("" : String) != "CORRUPT")) = true from rfl] at hres
  simp only [reduceIte] at hres
  rw [hjl] at hres
  dsimp only [Except.map] at hres
  split at hres
  · exact absurd hres (by simp)
  · cases hdh : c.dhcp == "on" <;> rw [hdh] at hres <;>
      simp only [Bool.false_and, Bool.true_and, Bool.and_false, Bool.and_true,
        Bool.not_true, Bool.not_false, Bool.false_eq_true, Bool.true_eq_false,
        eq_self_iff_true, if_true, if_false, Prod.mk.injEq] at hres <;>
      (obtain ⟨hr, hlog⟩ := hres) <;>
      refine ⟨by rw [← hlog], ?_⟩ <;>
      cases plugin <;> cases full <;>
        cases hjt : (c.jail_type != "plugin" && c.jail_type != "pluginv2") <;>
          (try simp only [hjt, Bool.true_and, Bool.false_and, Bool.and_true,
            Bool.and_false, Bool.true_eq_false, Bool.false_eq_true, eq_self_iff_true,
            if_true, if_false, Except.ok.injEq, Option.some.injEq] at hr) <;>
          first
          | (subst hr; exact ⟨rfl, rfl⟩)
          | simp at hr

theorem processJail_netCalls_inv (env : Env) (j : DsJail)
    (res : Except ProcErr (Option Record)) (log : CallLog)
    (hres : processJail env j = (res, log)) (hnc : log.netCalls ≠ []) :
    env.euid = 0 ∧
    ∃ c out, j.conf = some c ∧
      env.jls (jlsJailName c.host_hostuuid) = Except.ok out := by
  obtain ⟨euid, full, plugin, bj, jls, net⟩ := env
  obtain ⟨name, mp, conf, op, ui⟩ := j
  dsimp only at hnc ⊢
  dsimp only [processJail, list_get_jid] at hres
  split at hres
  · have hl := congrArg Prod.snd hres
    dsimp only at hl
    rw [← hl] at hnc
    exact absurd rfl hnc
  · cases conf with
    | none =>
      simp only [bne_self_eq_false, Bool.false_eq_true, if_false] at hres
      dsimp only [corruptConf] at hres
      rw [show ((("N/A" : String) == "on")) = false from rfl] at hres
      simp only [Bool.false_and, Bool.false_eq_true, if_false] at hres
      have hl := congrArg Prod.snd hres
      dsimp only at hl
      rw [← hl] at hnc
      exact absurd rfl hnc
    | some c =>
      rw [show ((("" : String) != "CORRUPT")) = true from rfl] at hres
      simp only [reduceIte] at hres
      cases hjl : jls (jlsJailName c.host_hostuuid) with
      | error e =>
        rw [hjl] at hres
        dsimp only [Except.map] at hres
        cases hdh : c.dhcp == "on" <;> rw [hdh] at hres <;>
          simp only [Bool.false_and, Bool.true_and, Bool.and_false, Bool.and_true,
            Bool.not_true, Bool.not_false, Bool.false_eq_true, Bool.true_eq_false,
            eq_self_iff_true, if_true, if_false] at hres <;>
          (have hl := congrArg Prod.snd hres) <;> dsimp only at hl <;>
          rw [← hl] at hnc <;> exact absurd rfl hnc
      | ok out =>
        rw [hjl] at hres
        dsimp only [Except.map] at hres
        cases h5 : (pySplitWs out).get? 5 with
        | none =>
          rw [h5] at hres
          have hl := congrArg Prod.snd hres
          dsimp only at hl
          rw [← hl] at hnc
          exact absurd rfl hnc
        | some v =>
          rw [h5] at hres
          dsimp only at hres
          by_cases heu : euid = 0
          · subst heu
            rw [show (decide ((0 : Nat) = 0)) = true from rfl,
                show (decide ((0 : Nat) ≠ 0)) = false from rfl] at hres
            cases hdh : c.dhcp == "on" with
            | false =>
              rw [hdh] at hres
              simp only [Bool.false_and, if_false, Bool.false_eq_true,
                Bool.and_false, Bool.not_true] at hres
              have hl := congrArg Prod.snd hres
              dsimp only at hl
              rw [← hl] at hnc
              exact absurd rfl hnc
            | true => exact ⟨rfl, c, out, rfl, hjl⟩
          · rw [decide_eq_false heu, decide_eq_true (show euid ≠ 0 from heu)] at hres
            cases hdh : c.dhcp == "on" <;> rw [hdh] at hres <;>
              simp only [Bool.false_and, Bool.true_and, Bool.and_false, Bool.and_true,
                Bool.not_true, Bool.not_false, Bool.false_eq_true, Bool.true_eq_false,
                eq_self_iff_true, if_true, if_false] at hres <;>
              (have hl := congrArg Prod.snd hres) <;> dsimp only at hl <;>
              rw [← hl] at hnc <;> exact absurd rfl hnc

theorem processJail_some_basejail (env : Env) (j : DsJail) (r : Record) (log : CallLog)
    (hb : env.basejail_only = true)
    (h : processJail env j = (.ok (some r), log)) :
    ∃ c, j.conf = some c ∧ c.basejail = some "yes" := by
  cases hc : j.conf with
  | none =>
    dsimp only [processJail] at h
    rw [hc, hb] at h
    simp only [Bool.true_and] at h
    rw [show ((corruptConf j.name, "CORRUPT", "-").1.basejail.getD "no" != "yes") = true from rfl] at h
    simp only [reduceIte] at h
    exact absurd h (by simp)
  | some c =>
    refine ⟨c, rfl, ?_⟩
    dsimp only [processJail] at h
    rw [hc, hb] at h
    simp only [Bool.true_and] at h
    by_contra hby
    have : ((c, "", "").1.basejail.getD "no" != "yes") = true := by
      cases hcb : c.basejail with
      | none => simp
      | some s =>
        simp only [Option.getD_some]
        simp only [bne_iff_ne, ne_eq]
        intro hs
        exact hby (by rw [hcb, hs])
    rw [this] at h
    simp only [reduceIte] at h
    exact absurd h (by simp)

theorem processQuickJail_some_basejail (q : QuickJail) (p : String × String)
    (h : processQuickJail true q = .ok (some p)) :
    ∃ c, q.load = QuickLoad.loaded c ∧ c.basejail.getD "no" = "yes" := by
  obtain ⟨mp, load⟩ := q
  cases load with
  | missing => exact absurd h (by simp [processQuickJail])
  | corrupt =>
    dsimp only [processQuickJail] at h
    rw [show ((({ host_hostuuid := lastSegS mp ++ " - CORRUPTED", ip4_addr := some "N/A", dhcp := some "N/A", basejail := none } : QuickConf).basejail.getD "no" != "yes")) = true from rfl] at h
    simp only [Bool.true_and, reduceIte] at h
    exact absurd h (by simp)
  | loaded c =>
    refine ⟨c, rfl, ?_⟩
    dsimp only [processQuickJail] at h
    by_contra hby
    have : (c.basejail.getD "no" != "yes") = true := by
      simp only [bne_iff_ne, ne_eq]
      exact hby
    rw [this] at h
    simp only [Bool.true_and, reduceIte] at h
    exact absurd h (by simp)

/-! ## Witness inputs: concrete environments and datasets -/

/-- A plain listing environment: short view, not plugin, not basejail-only,
root caller, probe and network calls failing. -/
def envW0 : Env where
  euid := 0
  full := false
  plugin := false
  basejail_only := false
  jls := fun _ => Except.error ()
  netQuery := fun _ _ => Except.error "err"

/-- A dataset whose configuration load raises. -/
def jailCorrupt : DsJail where
  name := "tank/iocage/jails/deadjail"
  mountpoint := "/iocage/jails/deadjail"
  conf := none
  originProp := none
  uiFile := none

/-- A quick-mode dataset whose configuration file is unparsable. -/
def qjailCorrupt : QuickJail where
  mountpoint := "/iocage/jails/badjail"
  load := QuickLoad.corrupt

/-- A quick-mode dataset whose configuration loads with `basejail = "yes"`. -/
def qjailBase : QuickJail where
  mountpoint := "/iocage/jails/bjail"
  load := QuickLoad.loaded
    { host_hostuuid := "bjail", ip4_addr := none, dhcp := none,
      basejail := some "yes" }

/-! ## Claim theorems -/

/-- C1: for every dataset whose configuration fails to load or parse (and
with the basejail-only and plugin filters off, which would otherwise drop
the record — see C10/C9), `list_all` still emits a record whose state is
`CORRUPT`, whose numeric id is `"-"`, whose configuration-derived fields are
all `"N/A"`, and whose identity is the last `/`-separated segment of the
dataset name; the empty `jlsCalls` log shows the kernel-registry probe is
never invoked for it. -/
theorem C1_corrupt_record_fields (env : Env) (j : DsJail)
    (hb : env.basejail_only = false) (hp : env.plugin = false)
    (hc : j.conf = none) :
    ∃ r : Record,
      processJail env j = (.ok (some r), ⟨[], []⟩) ∧
      r.state = "CORRUPT" ∧ r.jid = "-" ∧ r.uuid_full = lastSegS j.name ∧
      r.boot = "N/A" ∧ r.jail_type = "N/A" ∧ r.full_release = "N/A" ∧
      r.short_release = "N/A" ∧ r.full_ip4 = "N/A" ∧ r.short_ip4 = "N/A" ∧
      r.ip6 = "N/A" := by
  obtain ⟨euid, full, plugin, bj, jls, net⟩ := env
  obtain ⟨name, mp, conf, op, ui⟩ := j
  dsimp only at hb hp hc
  subst hb hp hc
  cases full
  · exact ⟨_, rfl, rfl, rfl, rfl, rfl, rfl, rfl, rfl, rfl, rfl, rfl⟩
  · exact ⟨_, rfl, rfl, rfl, rfl, rfl, rfl, rfl, rfl, rfl, rfl, rfl⟩

/-- C1 witness: the corrupt-record shape at a concrete environment and
dataset. -/
theorem C1_witness :
    envW0.basejail_only = false ∧ envW0.plugin = false ∧ jailCorrupt.conf = none ∧
    ∃ r : Record,
      processJail envW0 jailCorrupt = (.ok (some r), ⟨[], []⟩) ∧
      r.state = "CORRUPT" ∧ r.jid = "-" ∧ r.uuid_full = lastSegS jailCorrupt.name ∧
      r.boot = "N/A" ∧ r.jail_type = "N/A" ∧ r.full_release = "N/A" ∧
      r.short_release = "N/A" ∧ r.full_ip4 = "N/A" ∧ r.short_ip4 = "N/A" ∧
      r.ip6 = "N/A" :=
  ⟨rfl, rfl, rfl, C1_corrupt_record_fields envW0 jailCorrupt rfl rfl rfl⟩

/-- C2 counterexample: the claim says a missing configuration file is
absorbed in quick mode too, but `list_all_quick` aborts the whole listing on
the very first dataset with a missing `config.json` (the diagnostic is
raised at `EXCEPTION` level, and `conf` would be unbound afterwards). -/
theorem C2_quick_missing_aborts :
    list_all_quick false
      [{ mountpoint := "/iocage/jails/a", load := QuickLoad.missing }] =
      Except.error () := rfl

/-- C2 amended: in `list_all` (full processing), missing/unparsable
configurations and failures (non-zero exits) of the kernel-registry probe or
the live-network call are absorbed per record and the listing succeeds,
provided the successful probe outputs have the documented shape (at least 6
whitespace fields; at least 3 lines with a 2nd field for `ifconfig`) —
otherwise the field extraction itself raises.  In quick mode an unparsable
configuration is absorbed, but a missing configuration file aborts the
listing. -/
theorem C2_failures_absorbed :
    (∀ (env : Env) (jails : List DsJail),
        (∀ s out, env.jls s = Except.ok out → 6 ≤ (pySplitWs out).length) →
        (∀ n i out, env.netQuery n i = Except.ok out → (netParse? out).isSome) →
        ∃ rs log, list_all env jails = (.ok rs, log)) ∧
    (∀ (b : Bool) (qjails : List QuickJail),
        (∀ q ∈ qjails, q.load ≠ QuickLoad.missing) →
        ∃ l, list_all_quick b qjails = .ok l) ∧
    (∀ (b : Bool) (mp : String) (rest : List QuickJail),
        list_all_quick b ({ mountpoint := mp, load := QuickLoad.missing } :: rest) =
          Except.error ()) :=
  ⟨fun env jails hjls hnet => list_all_ok env jails hjls hnet,
   fun b qjails h => list_all_quick_ok b qjails h,
   fun _ _ _ => rfl⟩

/-- C2 witness: the amended statement applied to a concrete corrupt dataset
in both modes. -/
theorem C2_witness :
    (∃ rs log, list_all envW0 [jailCorrupt] = (Except.ok rs, log)) ∧
    (∃ l, list_all_quick false [qjailCorrupt] = Except.ok l) :=
  ⟨C2_failures_absorbed.1 envW0 [jailCorrupt]
      (fun _ _ h => Except.noConfusion h) (fun _ _ _ h => Except.noConfusion h),
   C2_failures_absorbed.2.1 false [qjailCorrupt]
      (fun q hq => by rw [List.mem_singleton] at hq; subst hq; decide)⟩

/-- C10: in basejail-only mode, every emitted row comes from a dataset whose
configuration loaded successfully with `basejail = "yes"`; corrupt records
(whose synthesized configuration can never satisfy the `"yes"` test) are
silently dropped, in both `list_all` and `list_all_quick`. -/
theorem C10_basejail_only_requires_loaded_yes :
    (∀ (env : Env) (jails : List DsJail) (rs : List Record) (log : CallLog),
        env.basejail_only = true →
        list_all env jails = (.ok rs, log) →
        ∀ r ∈ rs, ∃ j ∈ jails, ∃ c log2, j.conf = some c ∧ c.basejail = some "yes" ∧
          processJail env j = (.ok (some r), log2)) ∧
    (∀ (qjails : List QuickJail) (l : List (String × String)),
        list_all_quick true qjails = .ok l →
        ∀ p ∈ l, ∃ q ∈ qjails, ∃ c, q.load = QuickLoad.loaded c ∧
          c.basejail.getD "no" = "yes" ∧ processQuickJail true q = .ok (some p)) := by
  constructor
  · intro env jails
    induction jails with
    | nil =>
      intro rs log hb hla r hr
      dsimp only [list_all] at hla
      simp only [Prod.mk.injEq, Except.ok.injEq] at hla
      rw [← hla.1] at hr
      exact absurd hr (List.not_mem_nil r)
    | cons j rest ih =>
      intro rs log hb hla r hr
      dsimp only [list_all] at hla
      rcases hpj : processJail env j with ⟨res, lg⟩
      rw [hpj] at hla
      cases res with
      | error e => simp at hla
      | ok rec? =>
        rcases hrest : list_all env rest with ⟨res2, lg2⟩
        rw [hrest] at hla
        cases res2 with
        | error e => simp at hla
        | ok rs2 =>
          dsimp only at hla
          simp only [Prod.mk.injEq, Except.ok.injEq] at hla
          cases rec? with
          | none =>
            rw [← hla.1] at hr
            obtain ⟨jj, hjjmem, c, log2, h1, h2, h3⟩ := ih rs2 lg2 hb (by rw [hrest]) r hr
            exact ⟨jj, List.mem_cons_of_mem _ hjjmem, c, log2, h1, h2, h3⟩
          | some r0 =>
            rw [← hla.1] at hr
            rcases List.mem_cons.mp hr with hr0 | hr2
            · subst hr0
              obtain ⟨c, hc1, hc2⟩ := processJail_some_basejail env j r lg hb hpj
              exact ⟨j, List.mem_cons_self _ _, c, lg, hc1, hc2, hpj⟩
            · obtain ⟨jj, hjjmem, c, log2, h1, h2, h3⟩ := ih rs2 lg2 hb (by rw [hrest]) r hr2
              exact ⟨jj, List.mem_cons_of_mem _ hjjmem, c, log2, h1, h2, h3⟩
  · intro qjails
    induction qjails with
    | nil =>
      intro l hla p hp
      dsimp only [list_all_quick] at hla
      simp only [Except.ok.injEq] at hla
      rw [← hla] at hp
      exact absurd hp (List.not_mem_nil p)
    | cons q rest ih =>
      intro l hla p hp
      dsimp only [list_all_quick] at hla
      rcases hpq : processQuickJail true q with e | y
      · rw [hpq] at hla; simp at hla
      · rw [hpq] at hla
        rcases hrest : list_all_quick true rest with e2 | l2
        · rw [hrest] at hla; simp at hla
        · rw [hrest] at hla
          dsimp only at hla
          simp only [Except.ok.injEq] at hla
          cases y with
          | none =>
            rw [← hla] at hp
            obtain ⟨qq, hqmem, c, h1, h2, h3⟩ := ih l2 hrest p hp
            exact ⟨qq, List.mem_cons_of_mem _ hqmem, c, h1, h2, h3⟩
          | some p0 =>
            rw [← hla] at hp
            rcases List.mem_cons.mp hp with hp0 | hp2
            · subst hp0
              obtain ⟨c, hc1, hc2⟩ := processQuickJail_some_basejail q p hpq
              exact ⟨q, List.mem_cons_self _ _, c, hc1, hc2, hpq⟩
            · obtain ⟨qq, hqmem, c, h1, h2, h3⟩ := ih l2 hrest p hp2
              exact ⟨qq, List.mem_cons_of_mem _ hqmem, c, h1, h2, h3⟩

/-- C10 witness: a mixed concrete set — one corrupt dataset and one loaded
basejail — where every row of the basejail-only listing traces back to a
loaded `basejail = "yes"` configuration. -/
theorem C10_witness :
    ∀ p ∈ [("bjail", "none")],
      ∃ q ∈ [qjailCorrupt, qjailBase], ∃ c, q.load = QuickLoad.loaded c ∧
        c.basejail.getD "no" = "yes" ∧ processQuickJail true q = .ok (some p) :=
  C10_basejail_only_requires_loaded_yes.2 [qjailCorrupt, qjailBase]
    [("bjail", "none")] rfl

/-- C5: DHCP resolution is a three-way branch for every record with
`dhcp = "on"` (filters off so the record is emitted): (down) the full form
is exactly `"DHCP (not running)"` and the short form `"DHCP"`, regardless of
the statically stored address, with no network query; (up, non-root) the
forms indicate the address requires root, with no network query; (up, root)
the live network query runs and its `interface|address` result is the full
form; and the network query is only ever performed when the caller is root
and the probe reported the jail running. -/
theorem C5_dhcp_three_way (env : Env) (j : DsJail) (c : JailConf)
    (hc : j.conf = some c) (hd : c.dhcp = "on")
    (hb : env.basejail_only = false) (hp : env.plugin = false) :
    (env.jls (jlsJailName c.host_hostuuid) = Except.error () →
      ∃ r log, processJail env j = (.ok (some r), log) ∧
        r.full_ip4 = "DHCP (not running)" ∧ r.short_ip4 = "DHCP" ∧
        log.netCalls = []) ∧
    (∀ out v, env.jls (jlsJailName c.host_hostuuid) = Except.ok out →
      (pySplitWs out).get? 5 = some v → env.euid ≠ 0 →
      ∃ r log, processJail env j = (.ok (some r), log) ∧
        r.full_ip4 = "DHCP (running -- address requires root)" ∧
        r.short_ip4 = "DHCP" ∧ log.netCalls = []) ∧
    (∀ out v out2 addr, env.jls (jlsJailName c.host_hostuuid) = Except.ok out →
      (pySplitWs out).get? 5 = some v → env.euid = 0 →
      env.netQuery (jlsJailName c.host_hostuuid) (ifaceOf c.interfaces) = Except.ok out2 →
      netParse? out2 = some addr →
      ∃ r log, processJail env j = (.ok (some r), log) ∧
        r.full_ip4 = ifaceOf c.interfaces ++ "|" ++ addr ∧ r.short_ip4 = "DHCP" ∧
        log.netCalls = [jlsJailName c.host_hostuuid]) ∧
    (∀ res log, processJail env j = (res, log) → log.netCalls ≠ [] →
      env.euid = 0 ∧ ∃ out, env.jls (jlsJailName c.host_hostuuid) = Except.ok out) := by
  refine ⟨?_, ?_, ?_, ?_⟩
  · intro hjl
    obtain ⟨euid, full, plugin, bj, jls, net⟩ := env
    obtain ⟨name, mp, conf, op, ui⟩ := j
    dsimp only at hc hb hp hjl
    subst hc hb hp
    dsimp only [processJail, list_get_jid]
    rw [show ((("" : String) != "CORRUPT")) = true from rfl]
    simp only [reduceIte]
    rw [hjl]
    dsimp only [Except.map]
    rw [hd]
    rw [show ((("on" : String) == "on")) = true from rfl]
    simp only [Bool.true_and, Bool.and_true, Bool.false_and, Bool.and_false,
      Bool.not_true, Bool.not_false, Bool.false_eq_true, Bool.true_eq_false,
      eq_self_iff_true, if_true, if_false]
    cases full <;> exact ⟨_, _, rfl, rfl, rfl, rfl⟩
  · intro out v hjl h5 heu
    obtain ⟨euid, full, plugin, bj, jls, net⟩ := env
    obtain ⟨name, mp, conf, op, ui⟩ := j
    dsimp only at hc hb hp hjl heu
    subst hc hb hp
    dsimp only [processJail, list_get_jid]
    rw [show ((("" : String) != "CORRUPT")) = true from rfl]
    simp only [reduceIte]
    rw [hjl]
    dsimp only [Except.map]
    rw [h5]
    dsimp only
    rw [hd, decide_eq_false heu, decide_eq_true (show euid ≠ 0 from heu)]
    rw [show ((("on" : String) == "on")) = true from rfl]
    simp only [Bool.true_and, Bool.and_true, Bool.false_and, Bool.and_false,
      Bool.not_true, Bool.not_false, Bool.false_eq_true, Bool.true_eq_false,
      eq_self_iff_true, if_true, if_false]
    cases full <;> exact ⟨_, _, rfl, rfl, rfl, rfl⟩
  · intro out v out2 addr hjl h5 heu hnq hpar
    obtain ⟨euid, full, plugin, bj, jls, net⟩ := env
    obtain ⟨name, mp, conf, op, ui⟩ := j
    dsimp only at hc hb hp hjl heu hnq
    subst hc hb hp heu
    dsimp only [processJail, list_get_jid]
    rw [show ((("" : String) != "CORRUPT")) = true from rfl]
    simp only [reduceIte]
    rw [hjl]
    dsimp only [Except.map]
    rw [h5]
    dsimp only
    rw [hd]
    simp only [show (decide True) = true from rfl]
    rw [show ((("on" : String) == "on")) = true from rfl]
    simp only [Bool.true_and, Bool.and_true, Bool.false_and, Bool.and_false,
      Bool.not_true, Bool.not_false, Bool.false_eq_true, Bool.true_eq_false,
      eq_self_iff_true, if_true, if_false]
    rw [hnq]
    dsimp only
    rw [hpar]
    cases full <;> exact ⟨_, _, rfl, rfl, rfl, rfl⟩
  · intro res log hres hnc
    obtain ⟨heu, c2, out, hcc, hout⟩ := processJail_netCalls_inv env j res log hres hnc
    rw [hc] at hcc
    obtain rfl := Option.some.inj hcc
    exact ⟨heu, out, hout⟩

/-- C7: for every non-corrupt record, the kernel-registry probe is invoked
exactly once with the synthesized name `"ioc-"` plus the full untruncated
identity with `.` replaced by `_`; a zero-exit probe makes the state `"up"`
with the numeric id the 6th whitespace field of the output, and a non-zero
exit makes the state `"down"` with id `"-"`. -/
theorem C7_run_state_resolution (env : Env) (j : DsJail) (c : JailConf)
    (r : Record) (log : CallLog)
    (hc : j.conf = some c)
    (hres : processJail env j = (.ok (some r), log)) :
    jlsJailName c.host_hostuuid = "ioc-" ++ replaceS c.host_hostuuid "." "_" ∧
    log.jlsCalls = [jlsJailName c.host_hostuuid] ∧
    (∀ out, env.jls (jlsJailName c.host_hostuuid) = Except.ok out →
      r.state = "up" ∧ (pySplitWs out).get? 5 = some r.jid) ∧
    (env.jls (jlsJailName c.host_hostuuid) = Except.error () →
      r.state = "down" ∧ r.jid = "-") := by
  refine ⟨rfl, ?_, ?_, ?_⟩
  · cases hjl : env.jls (jlsJailName c.host_hostuuid) with
    | error e =>
      cases e
      exact (processJail_probe_down env j c r log hc hjl hres).1
    | ok out => exact (processJail_probe_up env j c r log out hc hjl hres).1
  · intro out hjl
    exact (processJail_probe_up env j c r log out hc hjl hres).2
  · intro hjl
    exact (processJail_probe_down env j c r log hc hjl hres).2
/-- A loaded configuration for a running jail (no DHCP). -/
def confUp : JailConf where
  host_hostuuid := "myjail"
  ip4_addr := "vnet0|10.0.0.5/24"
  ip6_addr := "none"
  boot := "on"
  jail_type := "jail"
  release := "12.0-RELEASE-p3"
  dhcp := "off"
  interfaces := "vnet0:bridge0"
  basejail := some "no"

/-- The same configuration with DHCP enabled. -/
def confDhcp : JailConf where
  host_hostuuid := "myjail"
  ip4_addr := "vnet0|10.0.0.5/24"
  ip6_addr := "none"
  boot := "on"
  jail_type := "jail"
  release := "12.0-RELEASE-p3"
  dhcp := "on"
  interfaces := "vnet0:bridge0"
  basejail := some "no"

/-- An environment whose kernel registry reports `myjail` running as jid 42. -/
def envUp : Env where
  euid := 0
  full := false
  plugin := false
  basejail_only := false
  jls := fun n =>
    if n == "ioc-myjail" then
      Except.ok "ioc-myjail 2 10.0.0.5 myjail /iocage/jails/myjail/root 42"
    else Except.error ()
  netQuery := fun _ _ => Except.error "err"

/-- The dataset of `myjail` with a loaded configuration. -/
def jailUp : DsJail where
  name := "tank/iocage/jails/myjail"
  mountpoint := "/iocage/jails/myjail"
  conf := some confUp
  originProp := some ""
  uiFile := none

/-- The dataset of `myjail` with DHCP enabled. -/
def jailDhcp : DsJail where
  name := "tank/iocage/jails/myjail"
  mountpoint := "/iocage/jails/myjail"
  conf := some confDhcp
  originProp := some ""
  uiFile := none

/-- The record `list_all` computes for `jailUp` under `envUp`. -/
def recUp : Record where
  jid := "42"
  uuid := "myjail"
  uuid_full := "myjail"
  state := "up"
  boot := "on"
  jail_type := "jail"
  full_release := "12.0-RELEASE-p3"
  short_release := "12.0-RELEASE"
  full_ip4 := "vnet0|10.0.0.5/24"
  short_ip4 := "10.0.0.5"
  ip6 := "-"
  template := "-"
  admin_portal := none

/-- C5 witness: a DHCP-enabled jail reported down gets the fixed
placeholders and no network query. -/
theorem C5_witness :
    ∃ r log, processJail envW0 jailDhcp = (.ok (some r), log) ∧
      r.full_ip4 = "DHCP (not running)" ∧ r.short_ip4 = "DHCP" ∧
      log.netCalls = [] :=
  (C5_dhcp_three_way envW0 jailDhcp confDhcp rfl rfl rfl rfl).1 rfl

/-- C7 witness: the run-state contract at a concrete running jail. -/
theorem C7_witness :
    jlsJailName confUp.host_hostuuid =
      "ioc-" ++ replaceS confUp.host_hostuuid "." "_" ∧
    (⟨["ioc-myjail"], []⟩ : CallLog).jlsCalls = [jlsJailName confUp.host_hostuuid] ∧
    (∀ out, envUp.jls (jlsJailName confUp.host_hostuuid) = Except.ok out →
      recUp.state = "up" ∧ (pySplitWs out).get? 5 = some recUp.jid) ∧
    (envUp.jls (jlsJailName confUp.host_hostuuid) = Except.error () →
      recUp.state = "down" ∧ recUp.jid = "-") :=
  C7_run_state_resolution envUp jailUp confUp recUp ⟨["ioc-myjail"], []⟩ rfl rfl

theorem takeWhile_all_append (q : Char → Bool) (a b : List Char)
    (h : ∀ x ∈ a, q x) : (a ++ b).takeWhile q = a ++ b.takeWhile q := by
  induction a with
  | nil => simp
  | cons x xs ih =>
    simp only [List.cons_append, List.takeWhile, h x (List.mem_cons_self x xs)]
    exact congrArg (fun t => x :: t) (ih (fun y hy => h y (List.mem_cons_of_mem _ hy)))

theorem addrOf?_no_bar (e : List Char) (h : ∀ x ∈ e, x ≠ '|') :
    addrOf? e = none := by
  unfold addrOf?
  rw [splitOnCharL_no_sep _ _ h]

theorem addrOf?_entry (f a p : List Char)
    (hf : ∀ x ∈ f, x ≠ '|')
    (ha : ∀ x ∈ a, x ≠ '|' ∧ x ≠ '/') :
    addrOf? (f ++ '|' :: (a ++ '/' :: p)) = some a := by
  obtain ⟨rest2, hr2⟩ := splitOnCharL_head '|' (a ++ '/' :: p)
  unfold addrOf?
  rw [splitOnCharL_append_cons '|' f _ hf, hr2]
  obtain ⟨rest3, hr3⟩ :=
    splitOnCharL_head '/' ((a ++ '/' :: p).takeWhile (fun x => x ≠ '|'))
  dsimp only
  rw [hr3]
  dsimp only
  have htw : (a ++ '/' :: p).takeWhile (fun x => (x ≠ '|' : Prop)) =
      a ++ '/' :: p.takeWhile (fun x => (x ≠ '|' : Prop)) := by
    rw [takeWhile_all_append _ a _ (fun x hx => by simp [(ha x hx).1])]
    simp [List.takeWhile]
  rw [htw]
  rw [takeWhile_all_append _ a _ (fun x hx => by simp [(ha x hx).2])]
  simp [List.takeWhile]



theorem entry_toList (f a p : String) :
    (f ++ "|" ++ a ++ "/" ++ p).toList =
      f.toList ++ '|' :: (a.toList ++ '/' :: p.toList) := by
  show (f ++ "|" ++ a ++ "/" ++ p).data = f.data ++ '|' :: (a.data ++ '/' :: p.data)
  simp [String.data_append]

theorem mapMOpt_addr (entries : List (String × String × String))
    (hcon : ∀ e ∈ entries,
      (∀ x ∈ e.1.toList, x ≠ ',' ∧ x ≠ '|') ∧
      (∀ x ∈ e.2.1.toList, x ≠ ',' ∧ x ≠ '|' ∧ x ≠ '/') ∧
      (∀ x ∈ e.2.2.toList, x ≠ ',')) :
    mapMOpt addrOf? ((entries.map fun e =>
        e.1 ++ "|" ++ e.2.1 ++ "/" ++ e.2.2).map String.toList) =
      some (entries.map fun e => e.2.1.toList) := by
  induction entries with
  | nil => rfl
  | cons e es ih =>
    obtain ⟨h1, h2, h3⟩ := hcon e (List.mem_cons_self e es)
    simp only [List.map_cons, mapMOpt]
    rw [show (e.1 ++ "|" ++ e.2.1 ++ "/" ++ e.2.2).toList =
        e.1.toList ++ '|' :: (e.2.1.toList ++ '/' :: e.2.2.toList) from entry_toList _ _ _]
    rw [addrOf?_entry e.1.toList e.2.1.toList e.2.2.toList
      (fun x hx => (h1 x hx).2)
      (fun x hx => ⟨(h2 x hx).2.1, (h2 x hx).2.2⟩)]
    rw [ih (fun e2 he2 => hcon e2 (List.mem_cons_of_mem _ he2))]

/-- C4: IPv4 short-form extraction: a comma-joined list of
`interface|address/prefix` entries maps to the comma-joined list of the
address parts; the raw value `"none"` maps to `"-"`; any raw value without
a `"|"` separator other than `"none"` passes through unchanged. -/
theorem C4_short_ip4_extraction :
    (∀ entries : List (String × String × String), entries ≠ [] →
      (∀ e ∈ entries,
        (∀ x ∈ e.1.toList, x ≠ ',' ∧ x ≠ '|') ∧
        (∀ x ∈ e.2.1.toList, x ≠ ',' ∧ x ≠ '|' ∧ x ≠ '/') ∧
        (∀ x ∈ e.2.2.toList, x ≠ ',')) →
      shortIp4 (joinS "," (entries.map fun e => e.1 ++ "|" ++ e.2.1 ++ "/" ++ e.2.2)) =
        joinS "," (entries.map fun e => e.2.1)) ∧
    shortIp4 "none" = "-" ∧
    (∀ raw : String, (∀ x ∈ raw.toList, x ≠ '|') → raw ≠ "none" →
      shortIp4 raw = raw) := by
  refine ⟨?_, rfl, ?_⟩
  · intro entries hne hcon
    unfold shortIp4 joinS
    have htl : (ofL (interL ",".toList ((entries.map fun e =>
        e.1 ++ "|" ++ e.2.1 ++ "/" ++ e.2.2).map String.toList))).toList =
        interL [','] ((entries.map fun e =>
          e.1 ++ "|" ++ e.2.1 ++ "/" ++ e.2.2).map String.toList) := rfl
    rw [htl]
    rw [splitOnCharL_interL ',' _ (by simpa using hne) ?hc]
    case hc =>
      intro q hq x hx
      simp only [List.map_map, List.mem_map] at hq
      obtain ⟨e, he, rfl⟩ := hq
      rw [Function.comp, entry_toList] at hx
      obtain ⟨h1, h2, h3⟩ := hcon e he
      rcases List.mem_append.mp hx with hx1 | hx2
      · exact (h1 x hx1).1
      · rcases List.mem_cons.mp hx2 with rfl | hx3
        · decide
        · rcases List.mem_append.mp hx3 with hx4 | hx5
          · exact (h2 x hx4).1
          · rcases List.mem_cons.mp hx5 with rfl | hx6
            · decide
            · exact h3 x hx6
    rw [mapMOpt_addr entries hcon]
    show ofL (interL [','] (entries.map fun e => e.2.1.toList)) =
      ofL (interL ",".toList ((entries.map fun e => e.2.1).map String.toList))
    rw [List.map_map]
    rfl
  · intro raw hbar hnone
    unfold shortIp4
    cases hsp : splitOnCharL ',' raw.toList with
    | nil => exact absurd hsp (splitOnCharL_ne_nil _ _)
    | cons g gs =>
      have hg : addrOf? g = none := by
        refine addrOf?_no_bar g (fun x hx => ?_)
        exact hbar x (mem_of_mem_splitOnCharL ',' raw.toList g
          (by rw [hsp]; exact List.mem_cons_self _ _) x hx)
      simp only [mapMOpt, hg]
      rw [if_pos hnone]

/-- C4 witness: the three behaviours at concrete raw values. -/
theorem C4_witness :
    shortIp4 (joinS "," ((([("vnet0", "10.0.0.5", "24"), ("vnet1", "10.0.0.6", "24")] :
        List (String × String × String)).map fun e =>
          e.1 ++ "|" ++ e.2.1 ++ "/" ++ e.2.2))) =
      joinS "," (([("vnet0", "10.0.0.5", "24"), ("vnet1", "10.0.0.6", "24")] :
        List (String × String × String)).map fun e => e.2.1) ∧
    shortIp4 "none" = "-" ∧
    shortIp4 "192.168.1.10" = "192.168.1.10" :=
  ⟨C4_short_ip4_extraction.1
      [("vnet0", "10.0.0.5", "24"), ("vnet1", "10.0.0.6", "24")]
      (by decide) (by decide),
   C4_short_ip4_extraction.2.1,
   C4_short_ip4_extraction.2.2 "192.168.1.10" (by decide) (by decide)⟩

theorem rsplitOnce?_no_match (h : Char) (pt : List Char) (l : List Char)
    (hne : h ∉ l) : rsplitOnce? (h :: pt) l = none := by
  induction l with
  | nil => rfl
  | cons c cs ih =>
    have hc : c ≠ h := fun he => hne (he ▸ List.mem_cons_self c cs)
    simp only [rsplitOnce?, ih (fun hm => hne (List.mem_cons_of_mem _ hm))]
    rw [if_neg]
    intro ⟨_, hpre⟩
    simp only [List.isPrefixOf] at hpre
    rcases Bool.and_eq_true_iff.mp hpre with ⟨hb, _⟩
    have hhc : h = c := by simpa using hb
    exact hc hhc.symm

theorem rsplitOnce?_last (h : Char) (pt a : List Char)
    (hpt : h ∉ pt) (ha : h ∉ a) :
    ∀ x : List Char, rsplitOnce? (h :: pt) (x ++ (h :: pt) ++ a) = some (x, a) := by
  intro x
  induction x with
  | nil =>
    show rsplitOnce? (h :: pt) (h :: (pt ++ a)) = some ([], a)
    have hnm : rsplitOnce? (h :: pt) (pt ++ a) = none :=
      rsplitOnce?_no_match h pt (pt ++ a) (by simp [hpt, ha])
    simp only [rsplitOnce?, hnm]
    rw [if_pos]
    · have : (h :: (pt ++ a)) = (h :: pt) ++ a := rfl
      rw [this, List.drop_left]
    · refine ⟨by simp, ?_⟩
      have : (h :: (pt ++ a)) = (h :: pt) ++ a := rfl
      rw [this]
      exact List.isPrefixOf_iff_prefix.mpr ⟨a, rfl⟩
  | cons c x' ih =>
    show rsplitOnce? (h :: pt) (c :: (x' ++ (h :: pt) ++ a)) = some (c :: x', a)
    simp only [rsplitOnce?, ih]

theorem ofL_toList (s : String) : ofL s.toList = s := rfl

theorem str_ne_empty_of_data (s : String) (h : s.toList ≠ []) : s ≠ "" := by
  intro he
  rw [he] at h
  exact h rfl



/-- C8: template-origin resolution: records of kind `template` always get
`"-"`; an absent or empty dataset-store origin gives `"-"`; otherwise the
origin's final path segment after stripping the trailing `/root@...`
clone-snapshot suffix is reported, except that a name whose lowercase form
contains `"release"` or `"stable"` is suppressed to `"-"`. -/
theorem C8_template_origin (jt : String) (op : Option String) :
    (jt = "template" → templateOf jt op = "-") ∧
    (templateOf jt none = "-") ∧
    (templateOf jt (some "") = "-") ∧
    (∀ pre n snap : String, jt ≠ "template" →
      (∀ x ∈ n.toList, x ≠ '/') → (∀ x ∈ snap.toList, x ≠ '/') →
      templateOf jt (some (pre ++ "/" ++ n ++ "/root@" ++ snap)) =
        if strContains (lowerS n) "release" || strContains (lowerS n) "stable"
        then "-" else n) := by
  refine ⟨?_, ?_, ?_, ?_⟩
  · intro hjt
    subst hjt
    rfl
  · cases hjt : jt == "template" <;>
      simp only [templateOf, hjt, Bool.false_eq_true, Bool.true_eq_false,
        eq_self_iff_true, if_true, if_false] <;> rfl
  · cases hjt : jt == "template" <;>
      simp only [templateOf, hjt, Bool.false_eq_true, Bool.true_eq_false,
        eq_self_iff_true, if_true, if_false] <;> rfl
  · intro pre n snap hjt hn hsnap
    have hbe : (jt == "template") = false := beq_eq_false_iff_ne.mpr hjt
    unfold templateOf
    rw [hbe]
    simp only [Bool.false_eq_true, if_false]
    have hsplit : rsplitOnce? "/root@".toList
        (pre ++ "/" ++ n ++ "/root@" ++ snap).toList =
        some ((pre ++ "/" ++ n).toList, snap.toList) := by
      have hdec : (pre ++ "/" ++ n ++ "/root@" ++ snap).toList =
          (pre ++ "/" ++ n).toList ++ ('/' :: "root@".toList) ++ snap.toList := by
        show (pre ++ "/" ++ n ++ "/root@" ++ snap).data = _
        simp [String.data_append]
      rw [hdec]
      exact rsplitOnce?_last '/' "root@".toList snap.toList (by decide) (by
        intro hm
        exact absurd rfl (hsnap '/' hm)) _
    have hv : (pre ++ "/" ++ n ++ "/root@" ++ snap) ≠ "" := by
      refine str_ne_empty_of_data _ ?_
      intro he
      have : ('/' : Char) ∈ (pre ++ "/" ++ n ++ "/root@" ++ snap).toList := by
        show ('/' : Char) ∈ (pre ++ "/" ++ n ++ "/root@" ++ snap).data
        simp [String.data_append]
      rw [he] at this
      simp at this
    rw [if_pos hv]
    unfold rsplitBeforeS
    rw [hsplit]
    have hlast : lastSegS (ofL (pre ++ "/" ++ n).toList) =
        ofL n.toList := by
      unfold lastSegS
      have : (ofL (pre ++ "/" ++ n).toList).toList = pre.toList ++ '/' :: n.toList := by
        show (pre ++ "/" ++ n).data = _
        simp [String.data_append]
      rw [this, lastSegL_append _ _ hn]
    rw [hlast]
    rw [ofL_toList]

/-- C8 witness: the template kind, a true template origin, and a
release-origin suppression, at concrete values. -/
theorem C8_witness :
    templateOf "template" (some "tank/iocage/x/root@y") = "-" ∧
    templateOf "jail"
        (some ("tank/iocage/templates" ++ "/" ++ "mytpl" ++ "/root@" ++ "clean")) =
      (if strContains (lowerS "mytpl") "release" ||
          strContains (lowerS "mytpl") "stable" then "-" else "mytpl") ∧
    templateOf "jail"
        (some ("tank/iocage/releases" ++ "/" ++ "12.0-RELEASE" ++ "/root@" ++ "j")) =
      (if strContains (lowerS "12.0-RELEASE") "release" ||
          strContains (lowerS "12.0-RELEASE") "stable" then "-"
       else "12.0-RELEASE") :=
  ⟨(C8_template_origin "template" (some "tank/iocage/x/root@y")).1 rfl,
   (C8_template_origin "jail" none).2.2.2 "tank/iocage/templates" "mytpl" "clean"
     (by decide) (by decide) (by decide),
   (C8_template_origin "jail" none).2.2.2 "tank/iocage/releases" "12.0-RELEASE" "j"
     (by decide) (by decide) (by decide)⟩

theorem resolvePh_oks (euid : Nat) (pre : List (String × String))
    (tail : List (String × PluginRes)) :
    ∀ s, resolvePh euid s (pre.map (fun q => (q.1, PluginRes.ok q.2)) ++ tail) =
      resolvePh euid (pre.foldl (fun acc q => replaceS acc q.1 q.2) s) tail := by
  induction pre with
  | nil => intro s; rfl
  | cons q qs ih =>
    intro s
    simp only [List.map_cons, List.cons_append, resolvePh, List.foldl_cons]
    exact ih (replaceS s q.1 q.2)

/-- C9: plugin-portal resolution (plugin view only): any record whose kind
is neither `plugin` nor `pluginv2` is discarded; a missing portal descriptor
yields `"-"`; otherwise `%%IP%%` is replaced by the display address; a
missing-key placeholder lookup is non-fatal and leaves the URL as resolved
so far; a structured command failure replaces the whole URL with the
command's captured output for root, or an access-denied placeholder
otherwise. -/
theorem C9_plugin_portal :
    (∀ (env : Env) (j : DsJail) (c : JailConf) (x : Option Record) (log : CallLog),
        env.plugin = true → j.conf = some c →
        (c.jail_type != "plugin" && c.jail_type != "pluginv2") = true →
        processJail env j = (.ok x, log) → x = none) ∧
    (∀ euid f, adminPortalOf euid f none = "-") ∧
    (∀ euid f ap, adminPortalOf euid f (some ⟨ap, none⟩) =
        replaceS ap "%%IP%%" (ipDisplay f)) ∧
    (∀ euid f ap (pre : List (String × String)) ph rest,
        adminPortalOf euid f (some ⟨ap,
            some (pre.map (fun q => (q.1, PluginRes.ok q.2)) ++
              (ph, PluginRes.keyErr) :: rest)⟩) =
          pre.foldl (fun acc q => replaceS acc q.1 q.2)
            (replaceS ap "%%IP%%" (ipDisplay f))) ∧
    (∀ euid f ap (pre : List (String × String)) ph m rest,
        adminPortalOf euid f (some ⟨ap,
            some (pre.map (fun q => (q.1, PluginRes.ok q.2)) ++
              (ph, PluginRes.cmdFailed m) :: rest)⟩) =
          if euid = 0 then m else "Admin Portal requires root") := by
  refine ⟨?_, fun _ _ => rfl, fun _ _ _ => rfl, ?_, ?_⟩
  · intro env j c x log hp hc hjt hres
    obtain ⟨euid, full, plugin, bj, jls, net⟩ := env
    obtain ⟨name, mp, conf, op, ui⟩ := j
    dsimp only at hp hc
    subst hp hc
    dsimp only [processJail, list_get_jid] at hres
    split at hres
    · have h := congrArg Prod.fst hres
      dsimp only at h
      exact (Except.ok.inj h).symm
    · rw [show ((("" : String) != "CORRUPT")) = true from rfl] at hres
      simp only [reduceIte] at hres
      cases hjl : jls (jlsJailName c.host_hostuuid) with
      | error e =>
        rw [hjl] at hres
        dsimp only [Except.map] at hres
        cases hdh : c.dhcp == "on" <;> rw [hdh] at hres <;>
          simp only [Bool.false_and, Bool.true_and, Bool.and_false, Bool.and_true,
            Bool.not_true, Bool.not_false, Bool.false_eq_true, Bool.true_eq_false,
            eq_self_iff_true, if_true, if_false, hjt, Prod.mk.injEq] at hres <;>
          exact (Except.ok.inj hres.1).symm
      | ok out =>
        rw [hjl] at hres
        dsimp only [Except.map] at hres
        cases h5 : (pySplitWs out).get? 5 with
        | none => rw [h5] at hres; exact absurd hres (by simp)
        | some v =>
          rw [h5] at hres
          dsimp only at hres
          by_cases heu : euid = 0
          · subst heu
            rw [show (decide ((0 : Nat) = 0)) = true from rfl,
                show (decide ((0 : Nat) ≠ 0)) = false from rfl] at hres
            cases hdh : c.dhcp == "on" with
            | false =>
              rw [hdh] at hres
              simp only [Bool.false_and, Bool.true_and, Bool.and_false, Bool.and_true,
                Bool.not_true, Bool.not_false, Bool.false_eq_true, Bool.true_eq_false,
                eq_self_iff_true, if_true, if_false, hjt, Prod.mk.injEq] at hres
              exact (Except.ok.inj hres.1).symm
            | true =>
              rw [hdh] at hres
              simp only [Bool.true_and, Bool.and_true] at hres
              cases hnq : net (jlsJailName c.host_hostuuid) (ifaceOf c.interfaces) with
              | error e2 =>
                rw [hnq] at hres
                dsimp only at hres
                simp only [Bool.false_eq_true, Bool.true_eq_false, eq_self_iff_true,
                  if_true, if_false, hjt, Prod.mk.injEq] at hres
                exact (Except.ok.inj hres.1).symm
              | ok out2 =>
                rw [hnq] at hres
                dsimp only at hres
                cases hpar : netParse? out2 with
                | none =>
                  rw [hpar] at hres
                  simp only [Bool.false_eq_true, Bool.true_eq_false,
                    eq_self_iff_true, if_true, if_false] at hres
                  exact absurd hres (by simp)
                | some addr =>
                  rw [hpar] at hres
                  dsimp only at hres
                  simp only [Bool.false_eq_true, Bool.true_eq_false, eq_self_iff_true,
                    if_true, if_false, hjt, Prod.mk.injEq] at hres
                  exact (Except.ok.inj hres.1).symm
          · rw [decide_eq_false heu, decide_eq_true (show euid ≠ 0 from heu)] at hres
            cases hdh : c.dhcp == "on" <;> rw [hdh] at hres <;>
              simp only [Bool.false_and, Bool.true_and, Bool.and_false, Bool.and_true,
                Bool.not_true, Bool.not_false, Bool.false_eq_true, Bool.true_eq_false,
                eq_self_iff_true, if_true, if_false, hjt, Prod.mk.injEq] at hres <;>
              exact (Except.ok.inj hres.1).symm
  · intro euid f ap pre ph rest
    show resolvePh euid (replaceS ap "%%IP%%" (ipDisplay f)) _ = _
    rw [resolvePh_oks]
    rfl
  · intro euid f ap pre ph m rest
    show resolvePh euid (replaceS ap "%%IP%%" (ipDisplay f)) _ = _
    rw [resolvePh_oks]
    show (if euid == 0 then m else "Admin Portal requires root") = _
    by_cases heu : euid = 0
    · rw [if_pos heu, if_pos (Nat.beq_eq_true_eq euid 0 ▸ heu)]
    · rw [if_neg heu, if_neg ?_]
      intro hbe
      exact heu (by simpa using hbe)

/-- C9 witness: placeholder resolution behaviours at concrete descriptors. -/
theorem C9_witness :
    adminPortalOf 0 "vnet0|10.0.0.5/24"
        (some ⟨"http://%%IP%%:PORT/",
          some [("PORT", PluginRes.ok "8080"), ("X", PluginRes.keyErr),
            ("Y", PluginRes.ok "z")]⟩) =
      ([("PORT", "8080")] : List (String × String)).foldl
        (fun acc q => replaceS acc q.1 q.2)
        (replaceS "http://%%IP%%:PORT/" "%%IP%%" (ipDisplay "vnet0|10.0.0.5/24")) ∧
    adminPortalOf 1000 "10.0.0.5"
        (some ⟨"u", some [("A", PluginRes.cmdFailed "boom")]⟩) =
      (if (1000 : Nat) = 0 then "boom" else "Admin Portal requires root") ∧
    adminPortalOf 0 "x" none = "-" :=
  ⟨C9_plugin_portal.2.2.2.1 0 "vnet0|10.0.0.5/24" "http://%%IP%%:PORT/"
      [("PORT", "8080")] "X" [("Y", PluginRes.ok "z")],
   C9_plugin_portal.2.2.2.2 1000 "10.0.0.5" "u" [] "A" "boom" [],
   C9_plugin_portal.2.1 0 "x"⟩

theorem dropWhile_head_not (p : Char → Bool) (l : List Char) :
    ∀ x xs, l.dropWhile p = x :: xs → p x = false := by
  induction l with
  | nil => intro x xs h; simp [List.dropWhile] at h
  | cons c cs ih =>
    intro x xs h
    simp only [List.dropWhile] at h
    split at h
    · exact ih x xs h
    · rename_i hc
      obtain ⟨rfl, rfl⟩ := List.cons.inj h
      simpa using hc

theorem rstripSetL_decomp (set l : List Char) :
    ∃ t, l = rstripSetL set l ++ t ∧
      (∀ x ∈ t, set.contains x = true) ∧
      (∀ x, (rstripSetL set l).getLast? = some x → set.contains x = false) := by
  refine ⟨(l.reverse.takeWhile (fun c => set.contains c)).reverse, ?_, ?_, ?_⟩
  · conv_lhs => rw [← l.reverse_reverse,
      ← List.takeWhile_append_dropWhile (p := fun c => set.contains c) (l := l.reverse),
      List.reverse_append]
    rfl
  · intro x hx
    rw [List.mem_reverse] at hx
    exact List.mem_takeWhile_imp hx
  · intro x hx
    unfold rstripSetL at hx
    rw [List.getLast?_reverse] at hx
    cases hd : l.reverse.dropWhile (fun c => set.contains c) with
    | nil => rw [hd] at hx; simp at hx
    | cons y ys =>
      rw [hd] at hx
      simp only [List.head?_cons, Option.some.injEq] at hx
      subst hx
      exact dropWhile_head_not _ _ y ys hd



/-- The claim's reading of the HBSD short form: the full form with one
trailing literal `"-HBSD"` suffix removed when present (not the character
set that `rstrip` actually removes). -/
def dropTrailingHBSD (s : String) : String :=
  if "-HBSD".toList.isSuffixOf s.toList then
    ofL (s.toList.take (s.toList.length - 5))
  else s

/-- C6 counterexample: for the release string `"HBSD"` (which contains the
marker), the code's short form is `""` — `rstrip("-HBSD")` removed the whole
string character-set-wise — while the claim's "full form with the trailing
`-HBSD` suffix stripped" is `"HBSD"` itself. -/
theorem C6_counterexample :
    strContains "HBSD" "HBSD" = true ∧
    (normalizeRelease "HBSD").1 = "HBSD" ∧
    (normalizeRelease "HBSD").2 = "" ∧
    dropTrailingHBSD (normalizeRelease "HBSD").1 = "HBSD" ∧
    (normalizeRelease "HBSD").2 ≠ dropTrailingHBSD (normalizeRelease "HBSD").1 := by
  refine ⟨rfl, rfl, rfl, rfl, ?_⟩
  decide

theorem map_ofL_toList (l : List (List Char)) :
    (l.map ofL).map String.toList = l := by
  induction l with
  | nil => rfl
  | cons a as ih => simp only [List.map_cons, ih]; rfl

theorem joinS_take2_toList (l : List (List Char)) :
    (joinS "-" ((l.map ofL).take 2)).toList = interL ['-'] (l.take 2) := by
  show (interL "-".toList (((l.map ofL).take 2).map String.toList)) = _
  rw [← List.map_take, map_ofL_toList]
  rfl

/-- C6 amended: for release strings containing `"HBSD"`, the short form is
the full form with *all trailing characters drawn from the five characters
`-`, `H`, `B`, `S`, `D`* removed (Python `rstrip` set semantics, not the
literal `-HBSD` suffix): the full form decomposes as the short form followed
by a tail drawn from that set, and the short form does not end in such a
character.  For marker-free strings the short form is the first two
hyphen-delimited segments rejoined with `-` (the whole string when it has
fewer than two hyphens). -/
theorem C6_release_normalization (s : String) :
    (strContains s "HBSD" = true →
      ∃ t : List Char,
        (normalizeRelease s).1.toList = (normalizeRelease s).2.toList ++ t ∧
        (∀ x ∈ t, x ∈ ("-HBSD" : String).toList) ∧
        (∀ x, (normalizeRelease s).2.toList.getLast? = some x →
          x ∉ ("-HBSD" : String).toList)) ∧
    (strContains s "HBSD" = false →
      (normalizeRelease s).1 = s ∧
      (∀ a b r : List Char, (∀ x ∈ a, x ≠ '-') → (∀ x ∈ b, x ≠ '-') →
        s.toList = a ++ '-' :: (b ++ '-' :: r) →
        (normalizeRelease s).2.toList = a ++ '-' :: b) ∧
      (∀ a b : List Char, (∀ x ∈ a, x ≠ '-') → (∀ x ∈ b, x ≠ '-') →
        s.toList = a ++ '-' :: b → (normalizeRelease s).2 = s) ∧
      ((∀ x ∈ s.toList, x ≠ '-') → (normalizeRelease s).2 = s)) := by
  constructor
  · intro hc
    unfold normalizeRelease
    rw [hc]
    simp only [if_true]
    obtain ⟨t, h1, h2, h3⟩ :=
      rstripSetL_decomp "-HBSD".toList (replaceS (reSubS s) "--SD" "-STABLE-HBSD").toList
    refine ⟨t, h1, ?_, ?_⟩
    · intro x hx
      simpa using h2 x hx
    · intro x hx
      simpa using h3 x hx
  · intro hc
    unfold normalizeRelease
    rw [hc]
    simp only [Bool.false_eq_true, if_false]
    refine ⟨by trivial, ?_, ?_, ?_⟩
    · intro a b r ha hb hs
      show (joinS "-" (((splitOnCharL '-' s.toList).map ofL).take 2)).toList = _
      rw [joinS_take2_toList, hs, splitOnCharL_append_cons '-' a _ ha,
        splitOnCharL_append_cons '-' b _ hb]
      simp [interL]
    · intro a b ha hb hs
      refine String.ext ?_
      show (joinS "-" (((splitOnCharL '-' s.toList).map ofL).take 2)).toList = s.toList
      rw [joinS_take2_toList, hs, splitOnCharL_append_cons '-' a _ ha,
        splitOnCharL_no_sep '-' b hb]
      simp [interL]
    · intro hnd
      refine String.ext ?_
      show (joinS "-" (((splitOnCharL '-' s.toList).map ofL).take 2)).toList = s.toList
      rw [joinS_take2_toList, splitOnCharL_no_sep '-' s.toList hnd]
      rfl

/-- C6 witness: both branches of the amended statement at concrete release
strings. -/
theorem C6_witness :
    (∃ t : List Char,
        (normalizeRelease "11.1-STABLE-HBSD").1.toList =
          (normalizeRelease "11.1-STABLE-HBSD").2.toList ++ t ∧
        (∀ x ∈ t, x ∈ ("-HBSD" : String).toList) ∧
        (∀ x, (normalizeRelease "11.1-STABLE-HBSD").2.toList.getLast? = some x →
          x ∉ ("-HBSD" : String).toList)) ∧
    ((normalizeRelease "12.0-RELEASE-p3").1 = "12.0-RELEASE-p3" ∧
      (∀ a b r : List Char, (∀ x ∈ a, x ≠ '-') → (∀ x ∈ b, x ≠ '-') →
        ("12.0-RELEASE-p3" : String).toList = a ++ '-' :: (b ++ '-' :: r) →
        (normalizeRelease "12.0-RELEASE-p3").2.toList = a ++ '-' :: b) ∧
      (∀ a b : List Char, (∀ x ∈ a, x ≠ '-') → (∀ x ∈ b, x ≠ '-') →
        ("12.0-RELEASE-p3" : String).toList = a ++ '-' :: b →
        (normalizeRelease "12.0-RELEASE-p3").2 = "12.0-RELEASE-p3") ∧
      ((∀ x ∈ ("12.0-RELEASE-p3" : String).toList, x ≠ '-') →
        (normalizeRelease "12.0-RELEASE-p3").2 = "12.0-RELEASE-p3")) :=
  ⟨(C6_release_normalization "11.1-STABLE-HBSD").1 (by decide),
   (C6_release_normalization "12.0-RELEASE-p3").2 (by decide)⟩

end IocList

namespace IocList

/-- The 22 hexadecimal digit characters. -/
def hexDigitsChars : List Char := "0123456789abcdefABCDEF".toList

/-- Modelled from the spec's words, for comparison with the code's
behaviour: a *canonical* unique identifier is the fixed-length hyphenated
hexadecimal form — five hex groups of lengths 8, 4, 4, 4 and 12 separated
by single hyphens. -/
def isCanonicalUuid (s : String) : Bool :=
  match splitOnCharL '-' s.toList with
  | [a, b, c, d, e] =>
    a.length == 8 && b.length == 4 && c.length == 4 && d.length == 4 &&
      e.length == 12 &&
      (a ++ b ++ c ++ d ++ e).all (fun x => x ∈ hexDigitsChars)
  | _ => false

theorem hexFacts : ∀ c ∈ hexDigitsChars,
    ¬ c.isWhitespace ∧ c ≠ '+' ∧ c ≠ '-' ∧ c ≠ ':' ∧ c ≠ '_' ∧ c ≠ 'x' ∧
    c ≠ 'X' ∧ c ≠ lbrace ∧ c ≠ rbrace ∧
    (hexVal? c).isSome ∧ hexValD c < 16 ∧ hexCharL (hexValD c) = c.toLower := by
  decide

set_option maxRecDepth 40000 in
theorem C3_counterexample :
    isCanonicalUuid "12345678123456781234567812345678" = false ∧
    displayUuid "12345678123456781234567812345678" = "12345678" ∧
    displayUuid "12345678123456781234567812345678" ≠
      "12345678123456781234567812345678" := by
  refine ⟨rfl, rfl, ?_⟩
  decide

end IocList

namespace IocList

theorem replaceL_id_of_not_mem (pat repl l : List Char) (ch : Char)
    (hch : ch ∈ pat) (hl : ∀ x ∈ l, x ≠ ch) : replaceL pat repl l = l := by
  induction l with
  | nil => rfl
  | cons c cs ih =>
    rw [replaceL_cons]
    rw [if_neg]
    · rw [ih (fun x hx => hl x (List.mem_cons_of_mem _ hx))]
    · rintro ⟨-, hpre⟩
      have hsub := (List.isPrefixOf_iff_prefix.mp hpre).subset
      exact hl ch (hsub hch) rfl

theorem replaceL_dash_filter (l : List Char) :
    replaceL ['-'] [] l = l.filter (fun x => x != '-') := by
  induction l with
  | nil => rfl
  | cons c cs ih =>
    rw [replaceL_cons]
    by_cases hc : c = '-'
    · subst hc
      rw [if_pos ⟨by simp, by simp [List.isPrefixOf]⟩]
      simp only [List.filter_cons, bne_self_eq_false, List.nil_append]
      exact ih
    · rw [if_neg]
      · simp only [List.filter_cons]
        rw [if_pos (by simpa using hc)]
        rw [ih]
      · rintro ⟨-, hpre⟩
        simp only [List.isPrefixOf] at hpre
        rcases Bool.and_eq_true_iff.mp hpre with ⟨hb, -⟩
        have hb2 : c = '-' := (beq_iff_eq.mp hb).symm
        exact hc hb2

theorem splitOnCharL_inv (c : Char) (l : List Char) :
    l = interL [c] (splitOnCharL c l) := by
  induction l with
  | nil => rfl
  | cons a as ih =>
    simp only [splitOnCharL]
    by_cases hac : a = c
    · subst hac
      rw [if_pos rfl]
      cases hs : splitOnCharL a as with
      | nil => exact absurd hs (splitOnCharL_ne_nil a as)
      | cons g gs =>
        rw [hs] at ih
        show a :: as = interL [a] ([] :: g :: gs)
        show a :: as = [] ++ [a] ++ interL [a] (g :: gs)
        simp only [List.nil_append, List.singleton_append]
        exact congrArg (a :: ·) ih
    · rw [if_neg hac]
      cases hs : splitOnCharL c as with
      | nil => exact absurd hs (splitOnCharL_ne_nil c as)
      | cons g gs =>
        rw [hs] at ih
        cases gs with
        | nil =>
          show a :: as = interL [c] [a :: g]
          show a :: as = a :: g
          exact congrArg (a :: ·) ih
        | cons g2 gs2 =>
          show a :: as = (a :: g) ++ [c] ++ interL [c] (g2 :: gs2)
          simp only [List.cons_append]
          exact congrArg (a :: ·) ih

end IocList

namespace IocList

theorem dropWhile_all_false (p : Char → Bool) (l : List Char)
    (h : ∀ x ∈ l, p x = false) : l.dropWhile p = l := by
  cases l with
  | nil => rfl
  | cons c cs =>
    rw [List.dropWhile_cons, if_neg]
    rw [h c (List.mem_cons_self c cs)]
    exact Bool.false_ne_true

theorem hexVal_eq_some_of_mem (c : Char) (hc : c ∈ hexDigitsChars) :
    hexVal? c = some (hexValD c) := by
  have hs := (hexFacts c hc).2.2.2.2.2.2.2.2.2.1
  obtain ⟨v, hv⟩ := Option.isSome_iff_exists.mp hs
  rw [hv]
  simp [hexValD, hv]

theorem hexDigitsVal_all (l : List Char) (acc : Nat)
    (h : ∀ c ∈ l, c ∈ hexDigitsChars) :
    hexDigitsVal acc l =
      some (l.foldl (fun a c => 16 * a + hexValD c) acc) := by
  induction l generalizing acc with
  | nil => rfl
  | cons c cs ih =>
    have hc := h c (List.mem_cons_self c cs)
    have hus := (hexFacts c hc).2.2.2.2.1
    rw [hexDigitsVal.eq_def]
    dsimp only
    rw [if_neg hus, hexVal_eq_some_of_mem c hc]
    dsimp only
    rw [ih (16 * acc + hexValD c) (fun x hx => h x (List.mem_cons_of_mem _ hx))]
    rfl

theorem foldl_hex_lt (l : List Char) (acc : Nat)
    (h : ∀ c ∈ l, c ∈ hexDigitsChars) :
    l.foldl (fun a c => 16 * a + hexValD c) acc < (acc + 1) * 16 ^ l.length := by
  induction l generalizing acc with
  | nil => simpa using Nat.lt_succ_self acc
  | cons c cs ih =>
    have hc := h c (List.mem_cons_self c cs)
    have hlt : hexValD c < 16 := (hexFacts c hc).2.2.2.2.2.2.2.2.2.2.1
    have h1 := ih (16 * acc + hexValD c) (fun x hx => h x (List.mem_cons_of_mem _ hx))
    have h2 : (16 * acc + hexValD c + 1) * 16 ^ cs.length ≤
        (acc + 1) * 16 ^ (c :: cs).length := by
      have hstep : 16 * acc + hexValD c + 1 ≤ (acc + 1) * 16 := by omega
      calc (16 * acc + hexValD c + 1) * 16 ^ cs.length
          ≤ (acc + 1) * 16 * 16 ^ cs.length := Nat.mul_le_mul_right _ hstep
        _ = (acc + 1) * 16 ^ (c :: cs).length := by
            rw [List.length_cons, pow_succ]
            ring
    exact lt_of_lt_of_le h1 h2

theorem take_set_of_le {α : Type} (l : List α) (i n : Nat) (a : α) (h : n ≤ i) :
    (l.set i a).take n = l.take n := by
  induction l generalizing i n with
  | nil => simp
  | cons c cs ih =>
    cases n with
    | zero => simp
    | succ n =>
      cases i with
      | zero => omega
      | succ i =>
        simp only [List.set, List.take]
        rw [ih i n (by omega)]

theorem natToNibbles_foldl (ds : List Nat) (h : ∀ d ∈ ds, d < 16) :
    natToNibbles ds.length (ds.foldl (fun a d => 16 * a + d) 0) = ds := by
  induction ds using List.reverseRecOn with
  | nil => rfl
  | append_singleton ds d ih =>
    have hd : d < 16 := h d (by simp)
    have hds : ∀ x ∈ ds, x < 16 := fun x hx => h x (by simp [hx])
    rw [List.length_append, List.length_cons, List.length_nil]
    rw [List.foldl_append]
    simp only [List.foldl_cons, List.foldl_nil]
    rw [natToNibbles]
    have hV : 16 * ds.foldl (fun a d => 16 * a + d) 0 + d = 
        16 * ds.foldl (fun a d => 16 * a + d) 0 + d := rfl
    rw [Nat.mul_add_div (by norm_num), Nat.mul_add_mod]
    rw [Nat.div_eq_of_lt hd, Nat.add_zero, Nat.mod_eq_of_lt hd]
    rw [ih hds]

end IocList

namespace IocList

theorem pyIntHexL_all_hex (c0 c1 : Char) (rest : List Char)
    (h : ∀ x ∈ c0 :: c1 :: rest, x ∈ hexDigitsChars) :
    pyIntHexL? (c0 :: c1 :: rest) =
      some (Int.ofNat ((c0 :: c1 :: rest).foldl
        (fun a ch => 16 * a + hexValD ch) 0)) := by
  have h0 := h c0 (List.mem_cons_self _ _)
  have h1 := h c1 (List.mem_cons_of_mem _ (List.mem_cons_self _ _))
  have hws : ∀ x ∈ c0 :: c1 :: rest, x.isWhitespace = false :=
    fun x hx => Bool.eq_false_iff.mpr (hexFacts x (h x hx)).1
  have d1 : (c0 :: c1 :: rest).dropWhile Char.isWhitespace = c0 :: c1 :: rest :=
    dropWhile_all_false _ _ hws
  have d2 : (c0 :: c1 :: rest).reverse.dropWhile Char.isWhitespace =
      (c0 :: c1 :: rest).reverse :=
    dropWhile_all_false _ _ (fun x hx => hws x (List.mem_reverse.mp hx))
  simp only [pyIntHexL?]
  rw [d1, d2, List.reverse_reverse]
  dsimp only
  rw [if_neg (hexFacts c0 h0).2.1, if_neg (hexFacts c0 h0).2.2.1]
  have hbody : pyIntBody? (c0 :: c1 :: rest) =
      some ((c0 :: c1 :: rest).foldl (fun a ch => 16 * a + hexValD ch) 0) := by
    simp only [pyIntBody?]
    rw [if_neg]
    · simp only [pyDigits?]
      rw [hexVal_eq_some_of_mem c0 h0]
      dsimp only
      rw [hexDigitsVal_all (c1 :: rest) (hexValD c0)
        (fun x hx => h x (List.mem_cons_of_mem _ hx))]
      simp only [List.foldl_cons]
      norm_num
    · rintro ⟨-, hor⟩
      rcases hor with hx1 | hX1
      · exact (hexFacts c1 h1).2.2.2.2.2.1 hx1
      · exact (hexFacts c1 h1).2.2.2.2.2.2.1 hX1
  rw [hbody]
  rfl

end IocList

namespace IocList

set_option maxHeartbeats 1000000 in
theorem displayUuid_canonical (s : String) (h : isCanonicalUuid s = true) :
    displayUuid s = ofL ((s.toList.take 8).map Char.toLower) := by
  unfold isCanonicalUuid at h
  split at h
  case h_2 => exact Bool.noConfusion h
  case h_1 a b c d e heq =>
  simp only [Bool.and_eq_true, beq_iff_eq, List.all_eq_true, decide_eq_true_eq] at h
  obtain ⟨⟨⟨⟨⟨ha8, hb4⟩, hc4⟩, hd4⟩, he12⟩, hhex⟩ := h
  obtain ⟨a0, a1, arest, rfl⟩ : ∃ a0 a1 arest, a = a0 :: a1 :: arest := by
    cases a with
    | nil => simp at ha8
    | cons x t =>
      cases t with
      | nil => simp at ha8
      | cons y u => exact ⟨x, y, u, rfl⟩
  have hha : ∀ x ∈ a0 :: a1 :: arest, x ∈ hexDigitsChars := by
    intro x hx
    apply hhex
    simp only [List.mem_cons] at hx
    simp only [List.mem_cons, List.mem_append]
    tauto
  have hhb : ∀ x ∈ b, x ∈ hexDigitsChars := fun x hx => hhex x (by simp [hx])
  have hhc : ∀ x ∈ c, x ∈ hexDigitsChars := fun x hx => hhex x (by simp [hx])
  have hhd : ∀ x ∈ d, x ∈ hexDigitsChars := fun x hx => hhex x (by simp [hx])
  have hhe : ∀ x ∈ e, x ∈ hexDigitsChars := fun x hx => hhex x (by simp [hx])
  have hdec : s.toList =
      (a0 :: a1 :: arest) ++ '-' :: (b ++ '-' :: (c ++ '-' :: (d ++ '-' :: e))) := by
    have h0 := splitOnCharL_inv '-' s.toList
    rw [heq] at h0
    simpa [interL, List.append_assoc] using h0
  have hmem : ∀ x ∈ s.toList, x ∈ hexDigitsChars ∨ x = '-' := by
    intro x hx
    rw [hdec] at hx
    rcases List.mem_append.mp hx with hx | hx
    · exact Or.inl (hha _ hx)
    · rcases List.mem_cons.mp hx with rfl | hx
      · exact Or.inr rfl
      · rcases List.mem_append.mp hx with hx | hx
        · exact Or.inl (hhb _ hx)
        · rcases List.mem_cons.mp hx with rfl | hx
          · exact Or.inr rfl
          · rcases List.mem_append.mp hx with hx | hx
            · exact Or.inl (hhc _ hx)
            · rcases List.mem_cons.mp hx with rfl | hx
              · exact Or.inr rfl
              · rcases List.mem_append.mp hx with hx | hx
                · exact Or.inl (hhd _ hx)
                · rcases List.mem_cons.mp hx with rfl | hx
                  · exact Or.inr rfl
                  · exact Or.inl (hhe _ hx)
  have hne : ∀ x ∈ s.toList, x ≠ ':' := by
    intro x hx
    rcases hmem x hx with hh | rfl
    · exact (hexFacts x hh).2.2.2.1
    · decide
  have e1 : replaceL "urn:".toList [] s.toList = s.toList :=
    replaceL_id_of_not_mem _ _ _ ':' (by decide) hne
  have e2 : replaceL "uuid:".toList [] s.toList = s.toList :=
    replaceL_id_of_not_mem _ _ _ ':' (by decide) hne
  have hbr : ∀ x ∈ s.toList, (decide (x = lbrace ∨ x = rbrace)) = false := by
    intro x hx
    rcases hmem x hx with hh | rfl
    · exact decide_eq_false (not_or.mpr
        ⟨(hexFacts x hh).2.2.2.2.2.2.2.1, (hexFacts x hh).2.2.2.2.2.2.2.2.1⟩)
    · decide
  have e3 : s.toList.dropWhile (fun x => decide (x = lbrace ∨ x = rbrace)) = s.toList :=
    dropWhile_all_false _ _ hbr
  have e4 : s.toList.reverse.dropWhile (fun x => decide (x = lbrace ∨ x = rbrace)) =
      s.toList.reverse :=
    dropWhile_all_false _ _ (fun x hx => hbr x (List.mem_reverse.mp hx))
  have hstep : ∀ (u v : List Char), (∀ x ∈ u, x ∈ hexDigitsChars) →
      (u ++ '-' :: v).filter (fun x => x != '-') =
        u ++ v.filter (fun x => x != '-') := by
    intro u v hu
    rw [List.filter_append]
    rw [List.filter_eq_self.mpr
      (fun x hx => bne_iff_ne.mpr (hexFacts x (hu x hx)).2.2.1)]
    simp
  have e5 : replaceL ['-'] [] s.toList =
      a0 :: a1 :: (arest ++ (b ++ (c ++ (d ++ e)))) := by
    rw [replaceL_dash_filter, hdec]
    rw [hstep _ _ hha, hstep _ _ hhb, hstep _ _ hhc, hstep _ _ hhd]
    rw [List.filter_eq_self.mpr
      (fun x hx => bne_iff_ne.mpr (hexFacts x (hhe x hx)).2.2.1)]
    rfl
  have hlen : (a0 :: a1 :: (arest ++ (b ++ (c ++ (d ++ e))))).length = 32 := by
    simp only [List.length_cons] at ha8
    simp only [List.length_cons, List.length_append, hb4, hc4, hd4, he12]
    omega
  have hall : ∀ x ∈ a0 :: a1 :: (arest ++ (b ++ (c ++ (d ++ e)))),
      x ∈ hexDigitsChars := by
    intro x hx
    simp only [List.mem_cons, List.mem_append] at hx
    rcases hx with rfl | rfl | hx | hx | hx | hx | hx
    · exact hha _ (by simp)
    · exact hha _ (by simp)
    · exact hha _ (by simp [hx])
    · exact hhb _ hx
    · exact hhc _ hx
    · exact hhd _ hx
    · exact hhe _ hx
  have e6 : pyIntHexL? (a0 :: a1 :: (arest ++ (b ++ (c ++ (d ++ e))))) =
      some (Int.ofNat ((a0 :: a1 :: (arest ++ (b ++ (c ++ (d ++ e))))).foldl
        (fun acc ch => 16 * acc + hexValD ch) 0)) :=
    pyIntHexL_all_hex _ _ _ hall
  have hVlt : (a0 :: a1 :: (arest ++ (b ++ (c ++ (d ++ e))))).foldl
      (fun acc ch => 16 * acc + hexValD ch) 0 < 2 ^ 128 := by
    have hb2 := foldl_hex_lt _ 0 hall
    rw [hlen] at hb2
    have h16 : (0 + 1) * 16 ^ 32 = 2 ^ 128 := by norm_num
    rw [h16] at hb2
    exact hb2
  have hpy : pyUUID4? s = some (ofL (uuidStrOfNibbles (setVersion4 (natToNibbles 32
      ((a0 :: a1 :: (arest ++ (b ++ (c ++ (d ++ e))))).foldl
        (fun acc ch => 16 * acc + hexValD ch) 0))))) := by
    simp only [pyUUID4?]
    rw [e1, e2, e3, e4, List.reverse_reverse, e5, if_pos hlen, e6]
    dsimp only
    rw [if_pos ⟨Int.ofNat_nonneg _, by
      have h2 : ((2 : Int) ^ 128) = Int.ofNat (2 ^ 128) := by norm_cast
      rw [h2]
      exact Int.ofNat_lt.mpr hVlt⟩]
    rfl
  have hmap : (a0 :: a1 :: (arest ++ (b ++ (c ++ (d ++ e))))).foldl
      (fun acc ch => 16 * acc + hexValD ch) 0 =
      ((a0 :: a1 :: (arest ++ (b ++ (c ++ (d ++ e))))).map hexValD).foldl
        (fun acc dd => 16 * acc + dd) 0 := by
    rw [List.foldl_map]
  have hds : natToNibbles 32 ((a0 :: a1 :: (arest ++ (b ++ (c ++ (d ++ e))))).foldl
      (fun acc ch => 16 * acc + hexValD ch) 0) =
      (a0 :: a1 :: (arest ++ (b ++ (c ++ (d ++ e))))).map hexValD := by
    rw [hmap]
    have hlen2 : ((a0 :: a1 :: (arest ++ (b ++ (c ++ (d ++ e))))).map hexValD).length
        = 32 := by rw [List.length_map]; exact hlen
    rw [← hlen2]
    apply natToNibbles_foldl
    intro dd hdd
    obtain ⟨ch, hch, rfl⟩ := List.mem_map.mp hdd
    exact (hexFacts ch (hall ch hch)).2.2.2.2.2.2.2.2.2.2.1
  have h32v : (setVersion4 ((a0 :: a1 :: (arest ++ (b ++ (c ++ (d ++ e))))).map
      hexValD)).length = 32 := by
    simp only [setVersion4, List.length_set, List.length_map]
    exact hlen
  have htake : (uuidStrOfNibbles (setVersion4 ((a0 :: a1 :: (arest ++ (b ++ (c ++
      (d ++ e))))).map hexValD))).take 8 =
      ((setVersion4 ((a0 :: a1 :: (arest ++ (b ++ (c ++ (d ++ e))))).map
        hexValD)).map hexCharL).take 8 := by
    simp only [uuidStrOfNibbles, List.append_assoc]
    rw [List.take_left' (by rw [List.length_take, List.length_map, h32v]; norm_num)]
  have hset : (setVersion4 ((a0 :: a1 :: (arest ++ (b ++ (c ++ (d ++ e))))).map
      hexValD)).take 8 =
      ((a0 :: a1 :: (arest ++ (b ++ (c ++ (d ++ e))))).map hexValD).take 8 := by
    simp only [setVersion4]
    rw [take_set_of_le _ 16 8 _ (by norm_num), take_set_of_le _ 12 8 _ (by norm_num)]
  have hl8a : (a0 :: a1 :: (arest ++ (b ++ (c ++ (d ++ e))))).take 8 =
      a0 :: a1 :: arest := by
    exact List.take_left' ha8
  have hstake : s.toList.take 8 = a0 :: a1 :: arest := by
    rw [hdec]
    exact List.take_left' ha8
  unfold displayUuid
  rw [hpy]
  dsimp only
  rw [show (ofL (uuidStrOfNibbles (setVersion4 (natToNibbles 32
      ((a0 :: a1 :: (arest ++ (b ++ (c ++ (d ++ e))))).foldl
        (fun acc ch => 16 * acc + hexValD ch) 0))))).toList =
      uuidStrOfNibbles (setVersion4 (natToNibbles 32
        ((a0 :: a1 :: (arest ++ (b ++ (c ++ (d ++ e))))).foldl
          (fun acc ch => 16 * acc + hexValD ch) 0))) from rfl]
  rw [hds, htake, ← List.map_take, hset, ← List.map_take, hl8a, hstake]
  have hfin : ((a0 :: a1 :: arest).map hexValD).map hexCharL =
      (a0 :: a1 :: arest).map Char.toLower := by
    rw [List.map_map]
    apply List.map_congr_left
    intro x hx
    exact (hexFacts x (hha x hx)).2.2.2.2.2.2.2.2.2.2.2
  rw [hfin]

end IocList

namespace IocList

/-- C3 (amended): identity shortening.  For every identity in the canonical
8-4-4-4-12 hyphenated hexadecimal form the displayed identity is the first
8 characters of the canonical lowercase rendering, i.e. the lowercase form
of the input's own first 8 characters; and whenever the UUID constructor
raises (the parse fails), the identity is displayed exactly unmodified. -/
theorem C3_identity_shortening (s : String) :
    (isCanonicalUuid s = true →
      displayUuid s = ofL ((s.toList.take 8).map Char.toLower)) ∧
    (pyUUID4? s = none → displayUuid s = s) := by
  constructor
  · exact displayUuid_canonical s
  · intro h
    unfold displayUuid
    rw [h]

set_option maxRecDepth 100000 in
theorem C3_witness :
    (isCanonicalUuid "8C2F9875-6B83-4A9B-AB4B-84765241FBDB" = true ∧
      displayUuid "8C2F9875-6B83-4A9B-AB4B-84765241FBDB" = "8c2f9875") ∧
    (pyUUID4? "myjail" = none ∧ displayUuid "myjail" = "myjail") := by
  refine ⟨⟨by decide, ?_⟩, ⟨by decide, ?_⟩⟩
  · have h := (C3_identity_shortening "8C2F9875-6B83-4A9B-AB4B-84765241FBDB").1
      (by decide)
    rw [h]
    decide
  · exact (C3_identity_shortening "myjail").2 (by decide)

end IocList
